import Mathlib

/-!
Shallow embedding of the async-lock engine (src/lib/index.js) and proofs of the
specification claims about it.

Modelling conventions:
* JS keys are opaque comparable values; we use `Nat`, with JS truthiness made
  explicit (`0` is falsy, like `''` or `0` for real JS keys).
* The source's ES5 `MapPolyfill` (an insertion-ordered entry list searched
  linearly) is translated verbatim; its `get` returns `false` for a missing
  key, modelled as `none`.
* Each call to `acquire` allocates an acquisition record holding the closure
  variables of the source (`resolved`, `timer`, `called`) plus bookkeeping:
  whether the unit of work was invoked (`startedLocked` for `exec(true)`,
  `startedUnlocked` for the reentrant `exec(false)`), and the list of outcomes
  delivered to the completion channel (callback or promise — the source's
  `done` feeds both from the same spot, so one list represents either).
* A unit of work is opaque code; its interaction with the engine is captured by
  a `Behavior`: a one-argument fn that invokes its callback synchronously, a
  one-argument fn whose callback is invoked later (a separate step), or a
  zero-argument fn routed through `_promiseTry` whose settlement is always a
  later (microtask) step — with the settlement value predetermined when the fn
  returned or threw synchronously.
* The synchronous completion cascade (`done` → `shift()()` → `exec` → `done` …)
  is one atomic step of the machine, computed by `advanceLoop`, structurally
  recursive on the queue: the re-read of the live queue in the source agrees
  with the recursion argument because `doneCore` can only delete the key when
  the remaining queue is empty.
-/

set_option maxHeartbeats 1000000

abbrev Key := Nat
abbrev Tid := Nat

/-- The ES5 Map polyfill from the source: insertion-ordered key/value entries,
searched linearly with `===`. -/
structure MapPolyfill (β : Type) where
  elements : List (Key × β)
  deriving DecidableEq

/-- MapPolyfill.prototype.has: linear scan for the key. -/
def MapPolyfill.has {β : Type} (m : MapPolyfill β) (k : Key) : Bool :=
  m.elements.any (fun e => e.1 == k)

/-- MapPolyfill.prototype.get: value of the first entry with this key (the
source returns `false` when absent, modelled as `none`). -/
def MapPolyfill.get {β : Type} (m : MapPolyfill β) (k : Key) : Option β :=
  (m.elements.find? (fun e => e.1 == k)).map (fun e => e.2)

/-- Loop body of MapPolyfill.prototype.set: overwrite the value of the first
matching entry in place, else push a fresh entry at the end. -/
def MapPolyfill.setGo {β : Type} (k : Key) (v : β) : List (Key × β) → List (Key × β)
  | [] => [(k, v)]
  | e :: rest => if e.1 = k then (e.1, v) :: rest else e :: MapPolyfill.setGo k v rest

/-- MapPolyfill.prototype.set. -/
def MapPolyfill.set {β : Type} (m : MapPolyfill β) (k : Key) (v : β) : MapPolyfill β :=
  ⟨MapPolyfill.setGo k v m.elements⟩

/-- Loop body of MapPolyfill.prototype.delete: splice out the first matching
entry. -/
def MapPolyfill.deleteGo {β : Type} (k : Key) : List (Key × β) → List (Key × β)
  | [] => []
  | e :: rest => if e.1 = k then rest else e :: MapPolyfill.deleteGo k rest

/-- MapPolyfill.prototype.delete. -/
def MapPolyfill.delete {β : Type} (m : MapPolyfill β) (k : Key) : MapPolyfill β :=
  ⟨MapPolyfill.deleteGo k m.elements⟩

/-- MapPolyfill size (maintained as a counter in the source, equal to the
number of entries). -/
def MapPolyfill.size {β : Type} (m : MapPolyfill β) : Nat := m.elements.length

/-- Errors produced by a unit of work or by the engine itself.  The engine's
two own errors (`new Error('Too many pending tasks')`,
`new Error('async-lock timed out')`) are fresh objects a unit of work can
never produce, so user errors live in a separate constructor. -/
inductive JsErr
  | user (e : Nat)
  | tooManyPending
  | timedOut
  deriving DecidableEq

deriving instance DecidableEq for Except

/-- The `(err, ret)` pair a completion channel receives: an error, or a result
value (`none` = `undefined`). -/
abbrev Outcome := Except JsErr (Option Nat)

/-- What a unit of work hands to the engine when it completes: a user error or
a value. -/
abbrev SettleArg := Except Nat (Option Nat)

/-- How user errors/values flow into `done(locked, err, ret)`. -/
def toOutcome : SettleArg → Outcome
  | .ok v => .ok v
  | .error e => .error (.user e)

/-- Opaque behaviour of a unit of work, as seen by the engine:
* `syncCb r`: one-argument form (`fn.length === 1`) that invokes its completion
  callback synchronously, once, with `r`;
* `asyncCb`: one-argument form whose callback is invoked by later steps (any
  number of times, with any values);
* `promiseFn pre`: zero-argument form run through `_promiseTry`; `pre = some r`
  when the fn returns or throws synchronously (the settlement value is fixed at
  invocation but delivered on a later microtask), `none` for a pending promise
  settled by a later step. -/
inductive Behavior
  | syncCb (r : SettleArg)
  | asyncCb
  | promiseFn (pre : Option SettleArg)
  deriving DecidableEq

/-- Per-acquisition state: the source's closure variables (`resolved`, `timer`,
`called`) plus proof bookkeeping. -/
structure AcqRec where
  key : Key
  ctx : Option Nat
  beh : Behavior
  resolved : Bool := false
  timerArmed : Bool := false
  startedLocked : Bool := false
  startedUnlocked : Bool := false
  called : Bool := false
  deliveries : List Outcome := []
  deriving DecidableEq

/-- Whole-engine state: the two registries of the source plus the acquisition
records (indexed by `Tid` = position) and the global order in which units of
work were invoked. -/
structure LockState where
  queues : MapPolyfill (List Tid)
  domains : MapPolyfill (Option Nat)
  acqs : List AcqRec
  started : List Tid
  lockTimeout : Nat
  maxPending : Nat
  domainReentrant : Bool
  deriving DecidableEq

/-- JS `a || b` on an optional number (absent or `0` falls back). -/
def jsOrDefault (o : Option Nat) (d : Nat) : Nat :=
  match o with
  | some n => if n = 0 then d else n
  | none => d

/-- The AsyncLock constructor: `timeout`, `maxPending` defaults (0 = never,
1000), `domainReentrant` off unless set. -/
def initState (optsTimeout optsMaxPending : Option Nat) (reentrant : Bool) : LockState :=
  { queues := ⟨[]⟩
    domains := ⟨[]⟩
    acqs := []
    started := []
    lockTimeout := jsOrDefault optsTimeout 0
    maxPending := jsOrDefault optsMaxPending 1000
    domainReentrant := reentrant }

/-- Options object of a single `acquire` call. -/
structure Opts where
  timeout : Option Nat := none
  skipQueue : Bool := false
  maxPending : Option Nat := none
  deriving DecidableEq

def recOf (s : LockState) (t : Tid) : Option AcqRec := s.acqs[t]?

def keyOf (s : LockState) (t : Tid) : Key :=
  match recOf s t with
  | some r => r.key
  | none => 0

/-- Mark the closure variable `called` (the once-only guard of the callback the
engine hands to a one-argument fn; also stands for the once-only settlement of
the promise returned by `_promiseTry`). -/
def setCalled (s : LockState) (t : Tid) : LockState :=
  match s.acqs[t]? with
  | some r => { s with acqs := s.acqs.set t { r with called := true } }
  | none => s

/-- The registry mutation done on every locked completion (source lines
115–120): drop the key if its queue is empty, and clear its holder context. -/
def registryCleanup (s : LockState) (k : Key) : LockState :=
  let sa := if s.queues.get k = some [] then { s with queues := s.queues.delete k } else s
  { sa with domains := sa.domains.delete k }

/-- First half of `done(locked, err, ret)` (source lines 114–138): when locked,
clean up the registry; then deliver `(err, ret)` to the completion channel
unless already resolved. -/
def doneCore (s : LockState) (t : Tid) (locked : Bool) (res : Option Outcome) : LockState :=
  match s.acqs[t]? with
  | none => s
  | some r =>
    let s1 := if locked then registryCleanup s r.key else s
    if r.resolved then s1
    else { s1 with
            acqs := s1.acqs.set t
              { r with resolved := true, deliveries := r.deliveries ++ [res.getD (.ok none)] } }

/-- Bookkeeping at the moment `exec` invokes the unit of work (source lines
153–182): clear the timer, record the holder context when locked, and log the
invocation. -/
def startTask (s : LockState) (t : Tid) (locked : Bool) : LockState :=
  match s.acqs[t]? with
  | none => s
  | some r =>
    let s1 := { s with
                 acqs := s.acqs.set t
                   { r with timerArmed := false,
                            startedLocked := r.startedLocked || locked,
                            startedUnlocked := r.startedUnlocked || !locked },
                 started := s.started ++ [t] }
    if locked then { s1 with domains := s1.domains.set r.key r.ctx } else s1

/-- Tail of `done(locked)` plus the `exec(true)` of each dequeued waiter
(source lines 140–145 and 148–182): `shift()` the next waiter and run it; an
already-resolved (timed-out) waiter is skipped via `done(locked)`; a waiter
whose fn completes synchronously chains straight into the next `done`.  The
source expresses this as `done → shift()() → exec → done` recursion; the state
it computes is this fold over the queue. -/
def advanceLoop (s : LockState) (k : Key) : List Tid → LockState
  | [] => s
  | t :: rest =>
    let s1 := { s with queues := s.queues.set k rest }
    match s1.acqs[t]? with
    | none => s1
    | some r =>
      if r.resolved then
        advanceLoop (doneCore s1 t true none) k rest
      else
        let s2 := startTask s1 t true
        match r.beh with
        | .syncCb rr => advanceLoop (doneCore (setCalled s2 t) t true (some (toOutcome rr))) k rest
        | _ => s2

/-- Full `done` for a locked completion: registry cleanup and delivery, then
run the next waiter(s). -/
def doneLocked (s : LockState) (t : Tid) (res : Option Outcome) : LockState :=
  let k := keyOf s t
  let s1 := doneCore s t true res
  match s1.queues.get k with
  | some q => advanceLoop s1 k q
  | none => s1

/-- `exec(locked)` as called directly from `acquire` (fresh key, or reentrant):
skip if already resolved, otherwise invoke the unit of work; a synchronous
completion runs `done` at once. -/
def execEntry (s : LockState) (t : Tid) (locked : Bool) : LockState :=
  match s.acqs[t]? with
  | none => s
  | some r =>
    if r.resolved then
      if locked then doneLocked s t none else doneCore s t false none
    else
      let s2 := startTask s t locked
      match r.beh with
      | .syncCb rr =>
        let s3 := setCalled s2 t
        if locked then doneLocked s3 t (some (toOutcome rr))
        else doneCore s3 t false (some (toOutcome rr))
      | _ => s2

/-- The reentrancy test of source line 192:
`self.domainReentrant && !!process.domain && process.domain === self.domains.get(key)`
(`get` yields `false` when the key is absent, never `===` to a truthy domain). -/
def reentrantCond (s : LockState) (k : Key) (ctx : Option Nat) : Bool :=
  s.domainReentrant && ctx.isSome && (s.domains.get k == some ctx)

/-- AsyncLock.prototype.acquire on a single key (source lines 83–222).
`ctx` is `process.domain` at call time (the bound `exec` restores it), `beh`
the opaque behaviour of `fn`.  Note the overflow test reads `self.maxPending`
only — `opts.maxPending` is never consulted. -/
def acquire (s : LockState) (k : Key) (beh : Behavior) (ctx : Option Nat) (opts : Opts) :
    LockState :=
  let t := s.acqs.length
  let rec0 : AcqRec := { key := k, ctx := ctx, beh := beh }
  let s0 := { s with acqs := s.acqs ++ [rec0] }
  if s0.queues.has k = false then
    let s1 := { s0 with queues := s0.queues.set k [] }
    execEntry s1 t true
  else if reentrantCond s0 k ctx then
    execEntry s0 t false
  else
    match s0.queues.get k with
    | none => s0
    | some q =>
      if s0.maxPending ≤ q.length then
        doneCore s0 t false (some (.error .tooManyPending))
      else
        let s1 := { s0 with
                     queues := s0.queues.set k (if opts.skipQueue then t :: q else q ++ [t]) }
        if jsOrDefault opts.timeout s0.lockTimeout ≠ 0 then
          { s1 with acqs := s1.acqs.set t { rec0 with timerArmed := true } }
        else s1

/-- A later invocation of the completion callback handed to a one-argument fn,
or the settlement of the `_promiseTry` promise of a zero-argument fn: the
`called`/once-only guard, then `done(locked, err, ret)`. -/
def settle (s : LockState) (t : Tid) (r : SettleArg) : LockState :=
  match s.acqs[t]? with
  | none => s
  | some rec0 =>
    if rec0.called then s
    else
      let s1 := setCalled s t
      if rec0.startedLocked then doneLocked s1 t (some (toOutcome r))
      else doneCore s1 t false (some (toOutcome r))

/-- AsyncLock.prototype._promiseTry: invoke the zero-argument fn inside
try/catch, turning a synchronous throw into a rejection.  A JS computation
that returns or throws is an `Except`. -/
def _promiseTry (f : Except Nat (Option Nat)) : Except Nat (Option Nat) :=
  match f with
  | .ok v => .ok v
  | .error e => .error e

/-- Settlement reaching the engine after the zero-argument fn THREW
synchronously: `_promiseTry` catches and rejects, and the rejection handler
calls `done(locked, error)` on a microtask. -/
def syncThrowSettle (s : LockState) (t : Tid) (e : Nat) : LockState :=
  settle s t (_promiseTry (Except.error e))

/-- Settlement reaching the engine after the promise returned by the
zero-argument fn REJECTED asynchronously with `e`. -/
def asyncRejectSettle (s : LockState) (t : Tid) (e : Nat) : LockState :=
  settle s t (Except.error e)

/-- The `setTimeout` callback of source lines 212–215: null the timer, then
`done(false, new Error('async-lock timed out'))`. -/
def timeoutFire (s : LockState) (t : Tid) : LockState :=
  match s.acqs[t]? with
  | none => s
  | some r =>
    let s1 := { s with acqs := s.acqs.set t { r with timerArmed := false } }
    doneCore s1 t false (some (.error .timedOut))

/-- AsyncLock.prototype.isBusy (source lines 285–292).  The test is JS
truthiness (`if (!key)`): an absent argument and a falsy key (`0`) both take
the no-key branch.  Typed `LockState → Option Key → Bool`: mutation-free by
construction. -/
def isBusy (s : LockState) (key : Option Key) : Bool :=
  match key with
  | none => decide (0 < s.queues.size)
  | some k => if k = 0 then decide (0 < s.queues.size) else s.queues.has k

/-- What settlement values a unit of work can hand the engine: a one-argument
fn's callback can be invoked with anything at any time; the `_promiseTry`
promise of a zero-argument fn that already returned/threw synchronously
settles with exactly that value. -/
def behaviorAllows : Behavior → SettleArg → Prop
  | .syncCb _, _ => True
  | .asyncCb, _ => True
  | .promiseFn none, _ => True
  | .promiseFn (some pre), r => r = _promiseTry pre

/-- The atomic events of the engine: an `acquire` call (with the synchronous
part of its execution), a later completion of a started unit of work, and a
timer expiry. -/
inductive Step : LockState → LockState → Prop
  | acquireStep (s : LockState) (k : Key) (beh : Behavior) (ctx : Option Nat) (opts : Opts) :
      Step s (acquire s k beh ctx opts)
  | settleStep (s : LockState) (t : Tid) (r : SettleArg) (rec0 : AcqRec)
      (hrec : s.acqs[t]? = some rec0)
      (hstarted : rec0.startedLocked = true ∨ rec0.startedUnlocked = true)
      (hbeh : behaviorAllows rec0.beh r) :
      Step s (settle s t r)
  | timeoutStep (s : LockState) (t : Tid) (rec0 : AcqRec)
      (hrec : s.acqs[t]? = some rec0)
      (harmed : rec0.timerArmed = true) :
      Step s (timeoutFire s t)

/-- States reachable from a freshly constructed lock by engine events. -/
def Reachable (s : LockState) : Prop :=
  ∃ ot om r, Relation.ReflTransGen Step (initState ot om r) s

/-- A unit of work currently executing while holding the lock on `k`
(invoked by `exec(true)` and not yet completed). -/
def runningLockedFor (k : Key) (r : AcqRec) : Bool :=
  r.startedLocked && !r.resolved && (r.key == k)

/-- Number of units of work simultaneously holding the lock on `k`. -/
def holdersCount (s : LockState) (k : Key) : Nat :=
  s.acqs.countP (runningLockedFor k)

/-- Structural invariants of the engine state, apart from mutual exclusion:
registry keys are distinct; every queued tid is a valid, not-yet-started
acquisition of that very key; queues hold each waiter at most once; the
completion channel of an acquisition received exactly one outcome iff its
`resolved` flag is set; an armed timer belongs to a queued, unresolved,
never-started waiter; and a started unit of work never received the
acquisition-timeout error. -/
structure BaseInv (s : LockState) : Prop where
  qkeysNodup : (s.queues.elements.map Prod.fst).Nodup
  queuedWf : ∀ (k : Key) (q : List Tid) (t : Tid), s.queues.get k = some q → t ∈ q →
      ∃ r : AcqRec, s.acqs[t]? = some r ∧ r.key = k ∧
        r.startedLocked = false ∧ r.startedUnlocked = false
  queuedNodup : ∀ (k : Key) (q : List Tid), s.queues.get k = some q → q.Nodup
  queuedDisj : ∀ (k : Key) (q : List Tid) (k2 : Key) (q2 : List Tid) (t : Tid),
      s.queues.get k = some q → s.queues.get k2 = some q2 →
      t ∈ q → t ∈ q2 → k = k2
  deliv : ∀ (t : Tid) (r : AcqRec), s.acqs[t]? = some r →
      r.deliveries.length = if r.resolved then 1 else 0
  timerInv : ∀ (t : Tid) (r : AcqRec), s.acqs[t]? = some r → r.timerArmed = true →
      r.resolved = false ∧ r.startedLocked = false ∧ r.startedUnlocked = false
  noSelfTimeout : ∀ (t : Tid) (r : AcqRec), s.acqs[t]? = some r →
      (r.startedLocked = true ∨ r.startedUnlocked = true) →
      Except.error JsErr.timedOut ∉ r.deliveries
  resolvedCalled : ∀ (t : Tid) (r : AcqRec), s.acqs[t]? = some r → r.resolved = true →
      (r.startedLocked = true ∨ r.startedUnlocked = true) → r.called = true

/-- Mutual exclusion at one key: the key sits in the registry exactly when one
unit of work holds it, and never with two. -/
def MutexAt (s : LockState) (k : Key) : Prop :=
  holdersCount s k = if s.queues.has k then 1 else 0

/-- Full state invariant. -/
def EngineInv (s : LockState) : Prop :=
  BaseInv s ∧ ∀ k, MutexAt s k

/-- Two states that an outside observer watching everything except acquisition
`t`'s own record cannot tell apart. -/
def AgreeExcept (t : Tid) (s1 s2 : LockState) : Prop :=
  s1.queues = s2.queues ∧ s1.domains = s2.domains ∧ s1.started = s2.started ∧
  s1.acqs.length = s2.acqs.length ∧ ∀ u, u ≠ t → s1.acqs[u]? = s2.acqs[u]?

/-- Nested activation depth of the source's completion chain.  `done` runs the
next waiter by calling it inside its own activation
(`self.queues.get(key).shift()()` → `exec` → `fn` → `done` → …), so every
waiter processed synchronously — a timed-out waiter being skipped, or a waiter
whose one-argument fn completes synchronously — adds a level of call nesting
instead of iterating. -/
def advanceDepth (s : LockState) (k : Key) : List Tid → Nat
  | [] => 0
  | t :: rest =>
    let s1 := { s with queues := s.queues.set k rest }
    match s1.acqs[t]? with
    | none => 0
    | some r =>
      if r.resolved then 1 + advanceDepth (doneCore s1 t true none) k rest
      else
        let s2 := startTask s1 t true
        match r.beh with
        | .syncCb rr =>
          1 + advanceDepth (doneCore (setCalled s2 t) t true (some (toOutcome rr))) k rest
        | _ => 1

/-- Call nesting depth incurred when a holder's completion callback fires:
its own `done` activation plus the chain it triggers. -/
def settleChainDepth (s : LockState) (t : Tid) (r : SettleArg) : Nat :=
  match s.acqs[t]? with
  | none => 0
  | some rec0 =>
    if rec0.called then 0
    else
      let s1 := setCalled s t
      let s2 := doneCore s1 t true (some (toOutcome r))
      match s2.queues.get (keyOf s1 t) with
      | some q => 1 + advanceDepth s2 (keyOf s1 t) q
      | none => 1

/-- Queue `m` one-argument units of work on key 1, each completing its callback
synchronously. -/
def chainAcquires : Nat → LockState → LockState
  | 0, s => s
  | m + 1, s => acquire (chainAcquires m s) 1 (.syncCb (.ok none)) none {}

/-- A key held by an asynchronous unit of work with `n` queued waiters whose
one-argument fns all complete synchronously (the lock is built with a
`maxPending` of `n + 1` so that no waiter is rejected). -/
def chainState (n : Nat) : LockState :=
  chainAcquires n (acquire (initState none (some (n + 1)) false) 1 (.promiseFn none) none {})

/-- Stack depth of the completion chain fired by settling the holder of
`chainState n`. -/
def chainDepth (n : Nat) : Nat := settleChainDepth (chainState n) 0 (.ok none)

/-- The nesting structure `_acquireBatch` composes: acquire a key around an
inner action (`getFn` in the source). -/
inductive Chain
  | base
  | acq (key : Key) (inner : Chain)
  deriving DecidableEq

/-- `getFn(key, fn)` of source lines 247–251. -/
def getFn (key : Key) (fn : Chain) : Chain := Chain.acq key fn

/-- AsyncLock.prototype._acquireBatch composition (source lines 252–256):
`keys.reverse()` reverses the caller's array IN PLACE and returns that same
array, which `forEach` then folds into the nested chain.  Mutation is made
explicit by returning, beside the composed chain, the contents of the caller's
array after the call. -/
def _acquireBatch (keys : List Key) : Chain × List Key :=
  let reversedInPlace := keys.reverse
  (reversedInPlace.foldl (fun fnx k => getFn k fnx) Chain.base, reversedInPlace)

/-! ### Concrete runs used to check the specified behaviours -/

/-- One asynchronous unit of work holding key 1 on a default lock. -/
def oneHeld : LockState := acquire (initState none none false) 1 .asyncCb none {}

/-- FIFO scenario: A (tid 0) running on key 1, then B (tid 1) and C (tid 2)
queued in arrival order. -/
def fifoABC : LockState := acquire (acquire oneHeld 1 .asyncCb none {}) 1 .asyncCb none {}

/-- ...then A, B and C complete in turn. -/
def fifoRun : LockState :=
  settle (settle (settle fifoABC 0 (.ok none)) 1 (.ok none)) 2 (.ok none)

/-- Skip-queue scenario: D (tid 3) enqueued with `skipQueue` while A runs and
B, C wait. -/
def skipABCD : LockState := acquire fifoABC 1 .asyncCb none { skipQueue := true }

/-- ...then all four complete in turn (D is dequeued right after A). -/
def skipRun : LockState :=
  settle (settle (settle (settle skipABCD 0 (.ok none)) 3 (.ok none)) 1 (.ok none)) 2 (.ok none)

/-- Double-callback scenario: the holder of key 1 invokes its completion
callback twice, first with `(null, 5)`, then with an error. -/
def doubleCb : LockState := settle (settle oneHeld 0 (.ok (some 5))) 0 (.error 9)

/-- Overflow scenario: lock built with `maxPending: 2`; a holder (tid 0) and one
waiter (tid 1) on key 1. -/
def ovHeld : LockState :=
  acquire (acquire (initState none (some 2) false) 1 .asyncCb none {}) 1 .asyncCb none {}

/-- A third acquire passing a per-call `maxPending` of 1 although the queue
already holds 1 waiter. -/
def ovOpts : LockState := acquire ovHeld 1 .asyncCb none { maxPending := some 1 }

/-- Timeout scenario: lock with a 5 ms acquisition timeout; a holder (tid 0) and
a timer-armed waiter (tid 1) on key 1. -/
def toWaiting : LockState :=
  acquire (acquire (initState (some 5) none false) 1 .asyncCb none {}) 1 .asyncCb none {}

/-- Reentrant scenario: domain-reentrant lock whose key 1 is held by a unit of
work acquired from context 7. -/
def reHeld : LockState := acquire (initState none none true) 1 .asyncCb (some 7) {}

/-! ### List helpers -/

theorem getIdx_lt {α : Type} {l : List α} {i : Nat} {a : α} (h : l[i]? = some a) :
    i < l.length := by
  rw [List.getElem?_eq_some] at h
  exact h.1

theorem setConcatLen {α : Type} (l : List α) (x y : α) :
    (l ++ [x]).set l.length y = l ++ [y] := by
  induction l with
  | nil => rfl
  | cons h t ih => simp [List.set, ih]

theorem countP_set_balance {α : Type} (p : α → Bool) (l : List α) (i : Nat) (x y : α)
    (h : l[i]? = some y) :
    (l.set i x).countP p + (if p y then 1 else 0) = l.countP p + (if p x then 1 else 0) := by
  induction l generalizing i with
  | nil => simp at h
  | cons a t ih =>
    cases i with
    | zero =>
      simp at h
      subst h
      simp [List.countP_cons]
      omega
    | succ n =>
      simp at h
      have := ih n h
      simp [List.set, List.countP_cons]
      omega

theorem one_le_countP {α : Type} (p : α → Bool) {l : List α} {i : Nat} {a : α}
    (hi : l[i]? = some a) (ha : p a = true) : 1 ≤ l.countP p := by
  induction l generalizing i with
  | nil => simp at hi
  | cons c t ih =>
    cases i with
    | zero =>
      simp at hi
      subst hi
      rw [List.countP_cons_of_pos _ _ ha]
      omega
    | succ n =>
      simp at hi
      have := ih hi
      by_cases hc : p c = true
      · rw [List.countP_cons_of_pos _ _ hc]
        omega
      · rw [List.countP_cons_of_neg _ _ hc]
        omega

theorem two_le_countP {α : Type} (p : α → Bool) {l : List α} {i j : Nat} {a b : α}
    (hne : i ≠ j) (hi : l[i]? = some a) (hj : l[j]? = some b)
    (ha : p a = true) (hb : p b = true) : 2 ≤ l.countP p := by
  induction l generalizing i j with
  | nil => simp at hi
  | cons c t ih =>
    cases i with
    | zero =>
      cases j with
      | zero => exact absurd rfl hne
      | succ m =>
        simp at hi hj
        subst hi
        have := one_le_countP p hj hb
        rw [List.countP_cons_of_pos _ _ ha]
        omega
    | succ n =>
      cases j with
      | zero =>
        simp at hi hj
        subst hj
        have := one_le_countP p hi ha
        rw [List.countP_cons_of_pos _ _ hb]
        omega
      | succ m =>
        simp at hi hj
        have hnm : n ≠ m := by omega
        have := ih hnm hi hj
        by_cases hc : p c = true
        · rw [List.countP_cons_of_pos _ _ hc]
          omega
        · rw [List.countP_cons_of_neg _ _ hc]
          omega

theorem countP_le_one_unique {α : Type} (p : α → Bool) {l : List α}
    (h : l.countP p ≤ 1) {i j : Nat} {a b : α}
    (hi : l[i]? = some a) (hj : l[j]? = some b)
    (ha : p a = true) (hb : p b = true) : i = j := by
  by_contra hne
  have := two_le_countP p hne hi hj ha hb
  omega

/-! ### MapPolyfill lemmas -/

theorem MapPolyfill.findSetGoSelf {β : Type} (k : Key) (v : β) :
    ∀ l : List (Key × β),
      (MapPolyfill.setGo k v l).find? (fun e => e.1 == k) = some (k, v)
  | [] => by simp [MapPolyfill.setGo]
  | e :: rest => by
    by_cases h : e.1 = k
    · simp [MapPolyfill.setGo, h]
    · simp [MapPolyfill.setGo, h, MapPolyfill.findSetGoSelf k v rest]

theorem MapPolyfill.findSetGoNe {β : Type} (k : Key) (v : β) (k2 : Key) (hne : k2 ≠ k) :
    ∀ l : List (Key × β),
      (MapPolyfill.setGo k v l).find? (fun e => e.1 == k2) = l.find? (fun e => e.1 == k2)
  | [] => by simp [MapPolyfill.setGo, Ne.symm hne]
  | e :: rest => by
    have hne2 : ¬(k = k2) := fun hh => hne hh.symm
    by_cases h : e.1 = k
    · by_cases h2 : e.1 = k2
      · exact absurd (h.symm.trans h2) hne2
      · simp [MapPolyfill.setGo, h, h2, hne2]
    · by_cases h2 : e.1 = k2
      · simp [MapPolyfill.setGo, h, h2, hne]
      · simp [MapPolyfill.setGo, h, h2, MapPolyfill.findSetGoNe k v k2 hne rest]

theorem MapPolyfill.get_set_self {β : Type} (m : MapPolyfill β) (k : Key) (v : β) :
    (m.set k v).get k = some v := by
  simp [MapPolyfill.get, MapPolyfill.set, MapPolyfill.findSetGoSelf]

theorem MapPolyfill.get_set_ne {β : Type} (m : MapPolyfill β) (k : Key) (v : β) (k2 : Key)
    (hne : k2 ≠ k) : (m.set k v).get k2 = m.get k2 := by
  simp [MapPolyfill.get, MapPolyfill.set, MapPolyfill.findSetGoNe k v k2 hne]

theorem MapPolyfill.findDeleteGoNe {β : Type} (k k2 : Key) (hne : k2 ≠ k) :
    ∀ l : List (Key × β),
      (MapPolyfill.deleteGo k l).find? (fun e => e.1 == k2) = l.find? (fun e => e.1 == k2)
  | [] => by simp [MapPolyfill.deleteGo]
  | e :: rest => by
    by_cases h : e.1 = k
    · by_cases h2 : e.1 = k2
      · exact absurd (h.symm.trans h2) (fun hh => hne hh.symm)
      · have hne2 : ¬(k = k2) := fun hh => hne hh.symm
        simp [MapPolyfill.deleteGo, h, List.find?_cons, h2, hne2]
    · by_cases h2 : e.1 = k2
      · simp [MapPolyfill.deleteGo, h, h2, hne]
      · simp [MapPolyfill.deleteGo, h, h2, MapPolyfill.findDeleteGoNe k k2 hne rest]

theorem MapPolyfill.get_delete_ne {β : Type} (m : MapPolyfill β) (k k2 : Key)
    (hne : k2 ≠ k) : (m.delete k).get k2 = m.get k2 := by
  simp [MapPolyfill.get, MapPolyfill.delete, MapPolyfill.findDeleteGoNe k k2 hne]

theorem MapPolyfill.findDeleteGoSelf {β : Type} (k : Key) :
    ∀ l : List (Key × β), (l.map Prod.fst).Nodup →
      (MapPolyfill.deleteGo k l).find? (fun e => e.1 == k) = none
  | [], _ => by simp [MapPolyfill.deleteGo]
  | e :: rest, hnd => by
    rw [List.map_cons, List.nodup_cons] at hnd
    by_cases h : e.1 = k
    · subst h
      simp only [MapPolyfill.deleteGo, if_pos rfl]
      rw [List.find?_eq_none]
      intro x hx
      simp only [beq_iff_eq]
      intro hc
      exact hnd.1 (hc ▸ List.mem_map_of_mem Prod.fst hx)
    · simp [MapPolyfill.deleteGo, h, MapPolyfill.findDeleteGoSelf k rest hnd.2]

theorem MapPolyfill.get_delete_self {β : Type} (m : MapPolyfill β) (k : Key)
    (hnd : (m.elements.map Prod.fst).Nodup) : (m.delete k).get k = none := by
  simp [MapPolyfill.get, MapPolyfill.delete, MapPolyfill.findDeleteGoSelf k m.elements hnd]

theorem MapPolyfill.has_eq {β : Type} (m : MapPolyfill β) (k : Key) :
    m.has k = (m.get k).isSome := by
  rw [MapPolyfill.has, MapPolyfill.get]
  cases hf : m.elements.find? (fun e => e.1 == k) with
  | none =>
    simp only [Option.map_none', Option.isSome_none]
    rw [List.find?_eq_none] at hf
    rw [List.any_eq_false]
    intro x hx
    simpa using hf x hx
  | some e =>
    simp only [Option.map_some', Option.isSome_some]
    rw [List.any_eq_true]
    refine ⟨e, List.mem_of_find?_eq_some hf, ?_⟩
    simpa using List.find?_some hf

theorem MapPolyfill.keys_setGo {β : Type} (k : Key) (v : β) :
    ∀ l : List (Key × β),
      (MapPolyfill.setGo k v l).map Prod.fst =
        if l.any (fun e => e.1 == k) then l.map Prod.fst else l.map Prod.fst ++ [k]
  | [] => by simp [MapPolyfill.setGo]
  | e :: rest => by
    by_cases h : e.1 = k
    · simp [MapPolyfill.setGo, h]
    · rw [MapPolyfill.setGo]
      rw [if_neg h]
      simp only [List.map_cons, List.any_cons, MapPolyfill.keys_setGo k v rest]
      by_cases h2 : rest.any (fun e => e.1 == k)
      · simp [h, h2]
      · simp [h, h2]

theorem MapPolyfill.keys_set_nodup {β : Type} (m : MapPolyfill β) (k : Key) (v : β)
    (hnd : (m.elements.map Prod.fst).Nodup) :
    ((m.set k v).elements.map Prod.fst).Nodup := by
  rw [MapPolyfill.set, MapPolyfill.keys_setGo]
  by_cases h : m.elements.any (fun e => e.1 == k)
  · rwa [if_pos h]
  · rw [if_neg h]
    rw [List.nodup_append]
    refine ⟨hnd, List.nodup_singleton k, ?_⟩
    intro a ha hb
    simp at hb
    subst hb
    rw [List.any_eq_true] at h
    rcases List.mem_map.mp ha with ⟨e, he, hek⟩
    exact h ⟨e, he, by simp [hek]⟩

theorem MapPolyfill.keys_deleteGo_sublist {β : Type} (k : Key) :
    ∀ l : List (Key × β),
      ((MapPolyfill.deleteGo k l).map Prod.fst).Sublist (l.map Prod.fst)
  | [] => by simp [MapPolyfill.deleteGo]
  | e :: rest => by
    by_cases h : e.1 = k
    · simp only [MapPolyfill.deleteGo, if_pos h, List.map_cons]
      exact (List.sublist_cons_self e.1 (rest.map Prod.fst))
    · simp only [MapPolyfill.deleteGo, if_neg h, List.map_cons]
      exact List.Sublist.cons₂ e.1 (MapPolyfill.keys_deleteGo_sublist k rest)

theorem MapPolyfill.keys_delete_nodup {β : Type} (m : MapPolyfill β) (k : Key)
    (hnd : (m.elements.map Prod.fst).Nodup) :
    ((m.delete k).elements.map Prod.fst).Nodup :=
  (MapPolyfill.keys_deleteGo_sublist k m.elements).nodup hnd

theorem MapPolyfill.size_pos_iff {β : Type} (m : MapPolyfill β) :
    0 < m.size ↔ ∃ k, m.has k = true := by
  constructor
  · intro h
    rw [MapPolyfill.size, List.length_pos] at h
    rcases List.exists_mem_of_ne_nil m.elements h with ⟨e, he⟩
    exact ⟨e.1, by rw [MapPolyfill.has, List.any_eq_true]; exact ⟨e, he, by simp⟩⟩
  · rintro ⟨k, hk⟩
    rw [MapPolyfill.has, List.any_eq_true] at hk
    rcases hk with ⟨e, he, _⟩
    rw [MapPolyfill.size, List.length_pos]
    exact List.ne_nil_of_mem he

/-! ### Component effects of the engine primitives -/

theorem registryCleanup_queues (s : LockState) (k : Key) :
    (registryCleanup s k).queues =
      if s.queues.get k = some [] then s.queues.delete k else s.queues := by
  unfold registryCleanup
  split <;> rfl

theorem registryCleanup_domains (s : LockState) (k : Key) :
    (registryCleanup s k).domains = s.domains.delete k := by
  unfold registryCleanup
  split <;> rfl

theorem registryCleanup_acqs (s : LockState) (k : Key) :
    (registryCleanup s k).acqs = s.acqs := by
  unfold registryCleanup
  split <;> rfl

theorem registryCleanup_started (s : LockState) (k : Key) :
    (registryCleanup s k).started = s.started := by
  unfold registryCleanup
  split <;> rfl

theorem setCalled_queues (s : LockState) (t : Tid) : (setCalled s t).queues = s.queues := by
  unfold setCalled
  cases s.acqs[t]? <;> rfl

theorem setCalled_domains (s : LockState) (t : Tid) : (setCalled s t).domains = s.domains := by
  unfold setCalled
  cases s.acqs[t]? <;> rfl

theorem setCalled_started (s : LockState) (t : Tid) : (setCalled s t).started = s.started := by
  unfold setCalled
  cases s.acqs[t]? <;> rfl

theorem setCalled_acqs {s : LockState} {t : Tid} {r : AcqRec} (h : s.acqs[t]? = some r) :
    (setCalled s t).acqs = s.acqs.set t { r with called := true } := by
  unfold setCalled
  rw [h]

theorem doneCore_started (s : LockState) (t : Tid) (locked : Bool) (res : Option Outcome) :
    (doneCore s t locked res).started = s.started := by
  unfold doneCore
  cases s.acqs[t]? with
  | none => rfl
  | some r =>
    dsimp only
    split <;> split <;> simp [registryCleanup_started]

theorem doneCore_queues_false (s : LockState) (t : Tid) (res : Option Outcome) :
    (doneCore s t false res).queues = s.queues := by
  unfold doneCore
  cases s.acqs[t]? with
  | none => rfl
  | some r =>
    dsimp only
    split <;> rfl

theorem doneCore_domains_false (s : LockState) (t : Tid) (res : Option Outcome) :
    (doneCore s t false res).domains = s.domains := by
  unfold doneCore
  cases s.acqs[t]? with
  | none => rfl
  | some r =>
    dsimp only
    split <;> rfl

theorem doneCore_queues_true {s : LockState} {t : Tid} {r : AcqRec} (res : Option Outcome)
    (h : s.acqs[t]? = some r) :
    (doneCore s t true res).queues =
      if s.queues.get r.key = some [] then s.queues.delete r.key else s.queues := by
  unfold doneCore
  rw [h]
  dsimp only
  split <;> simp [registryCleanup_queues]

theorem doneCore_domains_true {s : LockState} {t : Tid} {r : AcqRec} (res : Option Outcome)
    (h : s.acqs[t]? = some r) :
    (doneCore s t true res).domains = s.domains.delete r.key := by
  unfold doneCore
  rw [h]
  dsimp only
  split <;> simp [registryCleanup_domains]

theorem doneCore_acqs_resolved {s : LockState} {t : Tid} {r : AcqRec} (locked : Bool)
    (res : Option Outcome) (h : s.acqs[t]? = some r) (hr : r.resolved = true) :
    (doneCore s t locked res).acqs = s.acqs := by
  unfold doneCore
  rw [h]
  dsimp only
  rw [if_pos hr]
  split <;> simp [registryCleanup_acqs]

theorem doneCore_acqs_unresolved {s : LockState} {t : Tid} {r : AcqRec} (locked : Bool)
    (res : Option Outcome) (h : s.acqs[t]? = some r) (hr : r.resolved = false) :
    (doneCore s t locked res).acqs =
      s.acqs.set t
        { r with resolved := true, deliveries := r.deliveries ++ [res.getD (.ok none)] } := by
  unfold doneCore
  rw [h]
  dsimp only
  rw [if_neg (by simp [hr])]
  split <;> simp [registryCleanup_acqs]

theorem doneCore_acqs_len (s : LockState) (t : Tid) (locked : Bool) (res : Option Outcome) :
    (doneCore s t locked res).acqs.length = s.acqs.length := by
  unfold doneCore
  cases s.acqs[t]? with
  | none => rfl
  | some r =>
    dsimp only
    split <;> split <;> simp [registryCleanup_acqs]

theorem startTask_queues (s : LockState) (t : Tid) (locked : Bool) :
    (startTask s t locked).queues = s.queues := by
  unfold startTask
  cases s.acqs[t]? with
  | none => rfl
  | some r =>
    dsimp only
    split <;> rfl

theorem startTask_started {s : LockState} {t : Tid} {r : AcqRec} (locked : Bool)
    (h : s.acqs[t]? = some r) :
    (startTask s t locked).started = s.started ++ [t] := by
  unfold startTask
  rw [h]
  dsimp only
  split <;> rfl

theorem startTask_domains_true {s : LockState} {t : Tid} {r : AcqRec}
    (h : s.acqs[t]? = some r) :
    (startTask s t true).domains = s.domains.set r.key r.ctx := by
  unfold startTask
  rw [h]
  simp

theorem startTask_domains_false (s : LockState) (t : Tid) :
    (startTask s t false).domains = s.domains := by
  unfold startTask
  cases s.acqs[t]? <;> rfl

theorem startTask_acqs {s : LockState} {t : Tid} {r : AcqRec} (locked : Bool)
    (h : s.acqs[t]? = some r) :
    (startTask s t locked).acqs =
      s.acqs.set t
        { r with timerArmed := false,
                 startedLocked := r.startedLocked || locked,
                 startedUnlocked := r.startedUnlocked || !locked } := by
  unfold startTask
  rw [h]
  dsimp only
  split <;> rfl

theorem startTask_acqs_len (s : LockState) (t : Tid) (locked : Bool) :
    (startTask s t locked).acqs.length = s.acqs.length := by
  unfold startTask
  cases s.acqs[t]? with
  | none => rfl
  | some r =>
    dsimp only
    split <;> simp

theorem setCalled_acqs_len (s : LockState) (t : Tid) :
    (setCalled s t).acqs.length = s.acqs.length := by
  unfold setCalled
  cases s.acqs[t]? <;> simp

/-! ### Invariant transfer helpers -/

theorem toOutcome_ne_timedOut (rr : SettleArg) : toOutcome rr ≠ Except.error JsErr.timedOut := by
  cases rr <;> simp [toOutcome]

theorem timedOut_ne_toOutcome (rr : SettleArg) :
    Except.error JsErr.timedOut ≠ toOutcome rr :=
  fun h => toOutcome_ne_timedOut rr h.symm

theorem MapPolyfill.has_of_get {β : Type} {m : MapPolyfill β} {k : Key} {v : β}
    (h : m.get k = some v) : m.has k = true := by
  rw [MapPolyfill.has_eq, h]
  rfl

theorem MapPolyfill.not_has_of_get_none {β : Type} {m : MapPolyfill β} {k : Key}
    (h : m.get k = none) : m.has k = false := by
  rw [MapPolyfill.has_eq, h]
  rfl

theorem MapPolyfill.get_none_of_not_has {β : Type} {m : MapPolyfill β} {k : Key}
    (h : m.has k = false) : m.get k = none := by
  rw [MapPolyfill.has_eq] at h
  cases hg : m.get k with
  | none => rfl
  | some v => rw [hg] at h; simp at h

theorem baseInv_ext {s s2 : LockState} (h : BaseInv s) (hq : s2.queues = s.queues)
    (ha : s2.acqs = s.acqs) : BaseInv s2 := by
  constructor
  · rw [hq]
    exact h.qkeysNodup
  · intro k q t hg hm
    rw [hq] at hg
    rw [ha]
    exact h.queuedWf k q t hg hm
  · intro k q hg
    rw [hq] at hg
    exact h.queuedNodup k q hg
  · intro k q k2 q2 t hg hg2 hm hm2
    rw [hq] at hg hg2
    exact h.queuedDisj k q k2 q2 t hg hg2 hm hm2
  · intro t r hr
    rw [ha] at hr
    exact h.deliv t r hr
  · intro t r hr
    rw [ha] at hr
    exact h.timerInv t r hr
  · intro t r hr
    rw [ha] at hr
    exact h.noSelfTimeout t r hr
  · intro t r hr
    rw [ha] at hr
    exact h.resolvedCalled t r hr

theorem mutexAt_ext {s s2 : LockState} {k : Key} (h : MutexAt s k) (hq : s2.queues = s.queues)
    (ha : s2.acqs = s.acqs) : MutexAt s2 k := by
  unfold MutexAt holdersCount at *
  rw [hq, ha]
  exact h

theorem holdersCount_ext {s s2 : LockState} (ha : s2.acqs = s.acqs) (k : Key) :
    holdersCount s2 k = holdersCount s k := by
  unfold holdersCount
  rw [ha]

theorem baseInv_shiftQueue {s : LockState} {k : Key} {t : Tid} {rest : List Tid}
    (h : BaseInv s) (hget : s.queues.get k = some (t :: rest)) :
    BaseInv { s with queues := s.queues.set k rest } := by
  constructor
  · exact MapPolyfill.keys_set_nodup s.queues k rest h.qkeysNodup
  · intro k2 q2 u hg hm
    by_cases hk : k2 = k
    · subst hk
      rw [MapPolyfill.get_set_self] at hg
      cases hg
      exact h.queuedWf k2 (t :: rest) u hget (List.mem_cons_of_mem t hm)
    · rw [MapPolyfill.get_set_ne _ _ _ _ hk] at hg
      exact h.queuedWf k2 q2 u hg hm
  · intro k2 q2 hg
    by_cases hk : k2 = k
    · subst hk
      rw [MapPolyfill.get_set_self] at hg
      cases hg
      exact (h.queuedNodup k2 (t :: rest) hget).of_cons
    · rw [MapPolyfill.get_set_ne _ _ _ _ hk] at hg
      exact h.queuedNodup k2 q2 hg
  · intro k2 q2 k3 q3 u hg hg2 hm hm2
    by_cases hk : k2 = k
    · by_cases hk3 : k3 = k
      · exact hk.trans hk3.symm
      · rw [hk, MapPolyfill.get_set_self] at hg
        cases hg
        rw [MapPolyfill.get_set_ne _ _ _ _ hk3] at hg2
        exact hk.trans
          (h.queuedDisj k (t :: rest) k3 q3 u hget hg2 (List.mem_cons_of_mem t hm) hm2)
    · rw [MapPolyfill.get_set_ne _ _ _ _ hk] at hg
      by_cases hk3 : k3 = k
      · rw [hk3, MapPolyfill.get_set_self] at hg2
        cases hg2
        exact (h.queuedDisj k2 q2 k (t :: rest) u hg hget hm
          (List.mem_cons_of_mem t hm2)).trans hk3.symm
      · rw [MapPolyfill.get_set_ne _ _ _ _ hk3] at hg2
        exact h.queuedDisj k2 q2 k3 q3 u hg hg2 hm hm2
  · exact h.deliv
  · exact h.timerInv
  · exact h.noSelfTimeout
  · exact h.resolvedCalled

theorem baseInv_deleteQueue {s : LockState} (h : BaseInv s) (k : Key) :
    BaseInv { s with queues := s.queues.delete k } := by
  constructor
  · exact MapPolyfill.keys_delete_nodup s.queues k h.qkeysNodup
  · intro k2 q2 u hg hm
    by_cases hk : k2 = k
    · subst hk
      rw [MapPolyfill.get_delete_self _ _ h.qkeysNodup] at hg
      cases hg
    · rw [MapPolyfill.get_delete_ne _ _ _ hk] at hg
      exact h.queuedWf k2 q2 u hg hm
  · intro k2 q2 hg
    by_cases hk : k2 = k
    · subst hk
      rw [MapPolyfill.get_delete_self _ _ h.qkeysNodup] at hg
      cases hg
    · rw [MapPolyfill.get_delete_ne _ _ _ hk] at hg
      exact h.queuedNodup k2 q2 hg
  · intro k2 q2 k3 q3 u hg hg2 hm hm2
    by_cases hk : k2 = k
    · subst hk
      rw [MapPolyfill.get_delete_self _ _ h.qkeysNodup] at hg
      cases hg
    · rw [MapPolyfill.get_delete_ne _ _ _ hk] at hg
      by_cases hk3 : k3 = k
      · subst hk3
        rw [MapPolyfill.get_delete_self _ _ h.qkeysNodup] at hg2
        cases hg2
      · rw [MapPolyfill.get_delete_ne _ _ _ hk3] at hg2
        exact h.queuedDisj k2 q2 k3 q3 u hg hg2 hm hm2
  · exact h.deliv
  · exact h.timerInv
  · exact h.noSelfTimeout
  · exact h.resolvedCalled

theorem baseInv_setRec {s : LockState} {t : Tid} {r r2 : AcqRec}
    (h : BaseInv s) (ht : s.acqs[t]? = some r)
    (hqd : ∀ k q, s.queues.get k = some q → t ∉ q)
    (hdel : r2.deliveries.length = if r2.resolved then 1 else 0)
    (htm : r2.timerArmed = true →
      r2.resolved = false ∧ r2.startedLocked = false ∧ r2.startedUnlocked = false)
    (hns : (r2.startedLocked = true ∨ r2.startedUnlocked = true) →
      Except.error JsErr.timedOut ∉ r2.deliveries)
    (hrc : r2.resolved = true → (r2.startedLocked = true ∨ r2.startedUnlocked = true) →
      r2.called = true) :
    BaseInv { s with acqs := s.acqs.set t r2 } := by
  constructor
  · exact h.qkeysNodup
  · intro k q u hg hm
    have hut : u ≠ t := fun he => (hqd k q hg) (he ▸ hm)
    rw [List.getElem?_set_ne (fun he => hut he.symm)]
    exact h.queuedWf k q u hg hm
  · exact h.queuedNodup
  · exact h.queuedDisj
  · intro u ru hu
    by_cases hut : u = t
    · subst hut
      rw [List.getElem?_set_self (getIdx_lt ht)] at hu
      cases hu
      exact hdel
    · rw [List.getElem?_set_ne (fun he => hut he.symm)] at hu
      exact h.deliv u ru hu
  · intro u ru hu
    by_cases hut : u = t
    · subst hut
      rw [List.getElem?_set_self (getIdx_lt ht)] at hu
      cases hu
      exact htm
    · rw [List.getElem?_set_ne (fun he => hut he.symm)] at hu
      exact h.timerInv u ru hu
  · intro u ru hu
    by_cases hut : u = t
    · subst hut
      rw [List.getElem?_set_self (getIdx_lt ht)] at hu
      cases hu
      exact hns
    · rw [List.getElem?_set_ne (fun he => hut he.symm)] at hu
      exact h.noSelfTimeout u ru hu
  · intro u ru hu
    by_cases hut : u = t
    · subst hut
      rw [List.getElem?_set_self (getIdx_lt ht)] at hu
      cases hu
      exact hrc
    · rw [List.getElem?_set_ne (fun he => hut he.symm)] at hu
      exact h.resolvedCalled u ru hu

theorem MapPolyfill.has_set_self {β : Type} (m : MapPolyfill β) (k : Key) (v : β) :
    (m.set k v).has k = true :=
  MapPolyfill.has_of_get (MapPolyfill.get_set_self m k v)

theorem MapPolyfill.has_set_ne {β : Type} (m : MapPolyfill β) (k : Key) (v : β) (k2 : Key)
    (hne : k2 ≠ k) : (m.set k v).has k2 = m.has k2 := by
  rw [MapPolyfill.has_eq, MapPolyfill.has_eq, MapPolyfill.get_set_ne _ _ _ _ hne]

theorem MapPolyfill.has_delete_ne {β : Type} (m : MapPolyfill β) (k k2 : Key)
    (hne : k2 ≠ k) : (m.delete k).has k2 = m.has k2 := by
  rw [MapPolyfill.has_eq, MapPolyfill.has_eq, MapPolyfill.get_delete_ne _ _ _ hne]

theorem MapPolyfill.has_delete_self {β : Type} (m : MapPolyfill β) (k : Key)
    (hnd : (m.elements.map Prod.fst).Nodup) : (m.delete k).has k = false :=
  MapPolyfill.not_has_of_get_none (MapPolyfill.get_delete_self m k hnd)

/-! ### Counting helpers and the synchronous-completion composite -/

theorem holdersCount_set_same {s : LockState} {t : Tid} {r : AcqRec} (h : s.acqs[t]? = some r)
    (r2 : AcqRec) (k2 : Key) (hp : runningLockedFor k2 r2 = runningLockedFor k2 r) :
    (s.acqs.set t r2).countP (runningLockedFor k2) = holdersCount s k2 := by
  have hb := countP_set_balance (runningLockedFor k2) s.acqs t r2 r h
  rw [hp] at hb
  unfold holdersCount
  omega

theorem holdersCount_set_incr {s : LockState} {t : Tid} {r : AcqRec} (h : s.acqs[t]? = some r)
    (r2 : AcqRec) (k2 : Key) (hpr : runningLockedFor k2 r = false)
    (hpr2 : runningLockedFor k2 r2 = true) :
    (s.acqs.set t r2).countP (runningLockedFor k2) = holdersCount s k2 + 1 := by
  have hb := countP_set_balance (runningLockedFor k2) s.acqs t r2 r h
  rw [hpr, hpr2] at hb
  simp at hb
  unfold holdersCount
  omega

theorem syncRun_acqs {s : LockState} {t : Tid} {r : AcqRec} (hr : s.acqs[t]? = some r)
    (hres : r.resolved = false) (rr : SettleArg) :
    (doneCore (setCalled (startTask s t true) t) t true (some (toOutcome rr))).acqs =
      s.acqs.set t
        { r with timerArmed := false, startedLocked := true,
                 startedUnlocked := r.startedUnlocked, called := true,
                 resolved := true, deliveries := r.deliveries ++ [toOutcome rr] } := by
  have hlt : t < s.acqs.length := getIdx_lt hr
  have h1 := startTask_acqs true hr
  have hlook1 : (startTask s t true).acqs[t]? =
      some { r with timerArmed := false, startedLocked := r.startedLocked || true,
                    startedUnlocked := r.startedUnlocked || !true } := by
    rw [h1]
    exact List.getElem?_set_self hlt
  have h2 := setCalled_acqs hlook1
  have hlook2 : (setCalled (startTask s t true) t).acqs[t]? =
      some { r with timerArmed := false, startedLocked := r.startedLocked || true,
                    startedUnlocked := r.startedUnlocked || !true, called := true } := by
    rw [h2, h1, List.set_set]
    exact List.getElem?_set_self hlt
  have h3 := doneCore_acqs_unresolved true (some (toOutcome rr)) hlook2 hres
  rw [h3, h2, h1, List.set_set, List.set_set]
  simp

theorem syncRun_lookup {s : LockState} {t : Tid} {r : AcqRec} (hr : s.acqs[t]? = some r) :
    (setCalled (startTask s t true) t).acqs[t]? =
      some { r with timerArmed := false, startedLocked := r.startedLocked || true,
                    startedUnlocked := r.startedUnlocked || !true, called := true } := by
  have hlt : t < s.acqs.length := getIdx_lt hr
  have h1 := startTask_acqs true hr
  have hlook1 : (startTask s t true).acqs[t]? =
      some { r with timerArmed := false, startedLocked := r.startedLocked || true,
                    startedUnlocked := r.startedUnlocked || !true } := by
    rw [h1]
    exact List.getElem?_set_self hlt
  have h2 := setCalled_acqs hlook1
  rw [h2, h1, List.set_set]
  exact List.getElem?_set_self hlt

theorem syncRun_queues {s : LockState} {t : Tid} {r : AcqRec} (hr : s.acqs[t]? = some r)
    (rr : SettleArg) :
    (doneCore (setCalled (startTask s t true) t) t true (some (toOutcome rr))).queues =
      if s.queues.get r.key = some [] then s.queues.delete r.key else s.queues := by
  have hq := doneCore_queues_true (some (toOutcome rr)) (syncRun_lookup hr)
  rw [hq, setCalled_queues, startTask_queues]

theorem syncRun_started {s : LockState} {t : Tid} {r : AcqRec} (hr : s.acqs[t]? = some r)
    (rr : SettleArg) :
    (doneCore (setCalled (startTask s t true) t) t true (some (toOutcome rr))).started =
      s.started ++ [t] := by
  rw [doneCore_started, setCalled_started, startTask_started true hr]

/-- Invariant restoration by the completion cascade: starting from a state
whose key `k` has just lost its holder (count 0), running the queue-advance
chain reestablishes the full engine invariant. -/
theorem advanceLoop_inv (k : Key) :
    ∀ (q : List Tid) (s : LockState),
      BaseInv s →
      (∀ k2, k2 ≠ k → holdersCount s k2 = if s.queues.has k2 then 1 else 0) →
      holdersCount s k = 0 →
      (s.queues.get k = some q ∧ q ≠ [] ∨ s.queues.get k = none ∧ q = []) →
      EngineInv (advanceLoop s k q)
  | [], s, hB, hMx, hCk, hQ => by
    rcases hQ with ⟨-, hne⟩ | ⟨hnone, -⟩
    · exact absurd rfl hne
    · rw [advanceLoop]
      refine ⟨hB, fun k2 => ?_⟩
      by_cases hk : k2 = k
      · subst hk
        unfold MutexAt
        rw [MapPolyfill.not_has_of_get_none hnone]
        simpa using hCk
      · exact hMx k2 hk
  | t :: rest, s, hB, hMx, hCk, hQ => by
    rcases hQ with ⟨hget, -⟩ | ⟨-, habs⟩
    swap
    · cases habs
    obtain ⟨r, hr, hrkey, hrSL, hrSU⟩ :=
      hB.queuedWf k (t :: rest) t hget (List.mem_cons_self t rest)
    have hndt : t ∉ rest := (List.nodup_cons.mp (hB.queuedNodup k (t :: rest) hget)).1
    have hB1 : BaseInv { s with queues := s.queues.set k rest } := baseInv_shiftQueue hB hget
    have hr1 : ({ s with queues := s.queues.set k rest } : LockState).acqs[t]? = some r := hr
    have hqd1 : ∀ k2 q2, (s.queues.set k rest).get k2 = some q2 → t ∉ q2 := by
      intro k2 q2 hg2 hm2
      by_cases hk : k2 = k
      · rw [hk, MapPolyfill.get_set_self] at hg2
        cases hg2
        exact hndt hm2
      · rw [MapPolyfill.get_set_ne _ _ _ _ hk] at hg2
        exact hk (hB.queuedDisj k2 q2 k (t :: rest) t hg2 hget hm2 (List.mem_cons_self t rest))
    have hprF : ∀ k2, runningLockedFor k2 r = false := by
      intro k2
      simp [runningLockedFor, hrSL]
    have hdelivF : r.deliveries = [] ∨ r.resolved = true := by
      by_cases hres : r.resolved = true
      · exact Or.inr hres
      · refine Or.inl (List.length_eq_zero.mp ?_)
        have := hB.deliv t r hr
        rw [if_neg hres] at this
        exact this
    rw [advanceLoop]
    rw [hr1]
    dsimp only
    by_cases hres : r.resolved = true
    · rw [if_pos hres]
      have hq2 := doneCore_queues_true none hr1
      have ha2 := doneCore_acqs_resolved true none hr1 hres
      by_cases h0 : rest = []
      · subst h0
        have hqq : (doneCore { s with queues := s.queues.set k [] } t true none).queues =
            (s.queues.set k []).delete k := by
          rw [hq2, hrkey]
          rw [if_pos (MapPolyfill.get_set_self s.queues k [])]
        refine advanceLoop_inv k [] _ ?_ ?_ ?_ ?_
        · exact baseInv_ext (baseInv_deleteQueue hB1 k) hqq ha2
        · intro k2 hk
          rw [holdersCount_ext ha2 k2, hqq, MapPolyfill.has_delete_ne _ _ _ hk,
            MapPolyfill.has_set_ne _ _ _ _ hk]
          exact hMx k2 hk
        · rw [holdersCount_ext ha2 k]
          exact hCk
        · refine Or.inr ⟨?_, rfl⟩
          rw [hqq]
          exact MapPolyfill.get_delete_self _ _ hB1.qkeysNodup
      · have hqq : (doneCore { s with queues := s.queues.set k rest } t true none).queues =
            s.queues.set k rest := by
          rw [hq2, hrkey]
          rw [if_neg (by rw [MapPolyfill.get_set_self]; simp [h0])]
        refine advanceLoop_inv k rest _ ?_ ?_ ?_ ?_
        · exact baseInv_ext hB1 hqq ha2
        · intro k2 hk
          rw [holdersCount_ext ha2 k2, hqq, MapPolyfill.has_set_ne _ _ _ _ hk]
          exact hMx k2 hk
        · rw [holdersCount_ext ha2 k]
          exact hCk
        · refine Or.inl ⟨?_, h0⟩
          rw [hqq]
          exact MapPolyfill.get_set_self s.queues k rest
    · rw [if_neg hres]
      have hresF : r.resolved = false := by
        cases hresx : r.resolved
        · rfl
        · exact absurd hresx hres
      have hdelivNil : r.deliveries = [] := by
        rcases hdelivF with h | h
        · exact h
        · exact absurd h hres
      have hC : EngineInv (startTask { s with queues := s.queues.set k rest } t true) := by
        have hstq := startTask_queues { s with queues := s.queues.set k rest } t true
        have hsta := startTask_acqs true hr1
        constructor
        · have hBmid2 : BaseInv { ({ s with queues := s.queues.set k rest } : LockState) with
              acqs := ({ s with queues := s.queues.set k rest } : LockState).acqs.set t
                { r with timerArmed := false, startedLocked := r.startedLocked || true,
                         startedUnlocked := r.startedUnlocked || !true } } := by
            refine baseInv_setRec hB1 hr1 hqd1 ?_ ?_ ?_ ?_
            · simp [hresF, hdelivNil]
            · intro htm
              simp at htm
            · intro hst
              simp [hdelivNil]
            · intro h1 h2
              simp [hresF] at h1
          exact baseInv_ext hBmid2 hstq hsta
        · intro k2
          unfold MutexAt
          rw [hstq]
          by_cases hk : k2 = k
          · subst hk
            rw [MapPolyfill.has_of_get (MapPolyfill.get_set_self s.queues k2 rest)]
            unfold holdersCount
            rw [hsta]
            have hincr := holdersCount_set_incr hr1
              { r with timerArmed := false, startedLocked := r.startedLocked || true,
                       startedUnlocked := r.startedUnlocked || !true } k2 (hprF k2)
              (by simp [runningLockedFor, hresF, hrkey])
            rw [hincr]
            unfold holdersCount at hCk ⊢
            simp [hCk]
          · rw [MapPolyfill.has_set_ne _ _ _ _ hk]
            unfold holdersCount
            rw [hsta]
            have hsame := holdersCount_set_same hr1
              { r with timerArmed := false, startedLocked := r.startedLocked || true,
                       startedUnlocked := r.startedUnlocked || !true } k2 ?_
            · rw [hsame]
              exact hMx k2 hk
            · have hkk : (r.key == k2) = false := by
                rw [hrkey, beq_eq_false_iff_ne]
                exact fun hh => hk hh.symm
              simp [runningLockedFor, hkk]
      cases hbeh : r.beh with
      | syncCb rr =>
        have ha4 := syncRun_acqs hr1 hresF rr
        have hq4 := syncRun_queues hr1 rr
        rw [hrkey] at hq4
        have hprC : ∀ k2, runningLockedFor k2
            ({ r with timerArmed := false, startedLocked := true,
                      startedUnlocked := r.startedUnlocked, called := true,
                      resolved := true,
                      deliveries := r.deliveries ++ [toOutcome rr] } : AcqRec) = false := by
          intro k2
          simp [runningLockedFor]
        have hBmid : BaseInv { ({ s with queues := s.queues.set k rest } : LockState) with
            acqs := ({ s with queues := s.queues.set k rest } : LockState).acqs.set t
              { r with timerArmed := false, startedLocked := true,
                       startedUnlocked := r.startedUnlocked, called := true,
                       resolved := true,
                       deliveries := r.deliveries ++ [toOutcome rr] } } := by
          refine baseInv_setRec hB1 hr1 hqd1 ?_ ?_ ?_ ?_
          · simp [hdelivNil]
          · intro htm
            simp at htm
          · intro hst
            simp [hdelivNil, toOutcome_ne_timedOut rr, timedOut_ne_toOutcome rr]
          · intro h1 h2
            rfl
        have hcnt4 : ∀ k2, (({ s with queues := s.queues.set k rest } : LockState).acqs.set t
            { r with timerArmed := false, startedLocked := true,
                     startedUnlocked := r.startedUnlocked, called := true,
                     resolved := true,
                     deliveries := r.deliveries ++ [toOutcome rr] }).countP
              (runningLockedFor k2) = holdersCount s k2 := by
          intro k2
          exact holdersCount_set_same hr1 _ k2 ((hprC k2).trans (hprF k2).symm)
        by_cases h0 : rest = []
        · subst h0
          have hqq : (doneCore (setCalled
              (startTask { s with queues := s.queues.set k [] } t true) t) t true
                (some (toOutcome rr))).queues = (s.queues.set k []).delete k := by
            rw [hq4]
            rw [if_pos (MapPolyfill.get_set_self s.queues k [])]
          refine advanceLoop_inv k [] _ ?_ ?_ ?_ ?_
          · exact baseInv_ext (baseInv_deleteQueue hBmid k) hqq ha4
          · intro k2 hk
            unfold holdersCount
            rw [ha4, hqq, MapPolyfill.has_delete_ne _ _ _ hk,
              MapPolyfill.has_set_ne _ _ _ _ hk, hcnt4 k2]
            exact hMx k2 hk
          · unfold holdersCount
            rw [ha4, hcnt4 k]
            exact hCk
          · refine Or.inr ⟨?_, rfl⟩
            rw [hqq]
            exact MapPolyfill.get_delete_self _ _ hB1.qkeysNodup
        · have hqq : (doneCore (setCalled
              (startTask { s with queues := s.queues.set k rest } t true) t) t true
                (some (toOutcome rr))).queues = s.queues.set k rest := by
            rw [hq4]
            rw [if_neg (by rw [MapPolyfill.get_set_self]; simp [h0])]
          refine advanceLoop_inv k rest _ ?_ ?_ ?_ ?_
          · exact baseInv_ext hBmid hqq ha4
          · intro k2 hk
            unfold holdersCount
            rw [ha4, hqq, MapPolyfill.has_set_ne _ _ _ _ hk, hcnt4 k2]
            exact hMx k2 hk
          · unfold holdersCount
            rw [ha4, hcnt4 k]
            exact hCk
          · refine Or.inl ⟨?_, h0⟩
            rw [hqq]
            exact MapPolyfill.get_set_self s.queues k rest
      | asyncCb => exact hC
      | promiseFn pre => exact hC

theorem keyOf_eq {s : LockState} {t : Tid} {r : AcqRec} (hr : s.acqs[t]? = some r) :
    keyOf s t = r.key := by
  unfold keyOf recOf
  rw [hr]

theorem started_not_queued {s : LockState} (hB : BaseInv s) {t : Tid} {r : AcqRec}
    (hr : s.acqs[t]? = some r)
    (hst : r.startedLocked = true ∨ r.startedUnlocked = true) :
    ∀ k2 q2, s.queues.get k2 = some q2 → t ∉ q2 := by
  intro k2 q2 hg hm
  obtain ⟨r2, hr2, -, hSL2, hSU2⟩ := hB.queuedWf k2 q2 t hg hm
  rw [hr] at hr2
  cases hr2
  rcases hst with hh | hh
  · rw [hh] at hSL2
    simp at hSL2
  · rw [hh] at hSU2
    simp at hSU2

theorem getQueueCases {α : Type} (l : List α) (x : α) (u : Nat) (ru : α)
    (hu : (l ++ [x])[u]? = some ru) : l[u]? = some ru ∨ u = l.length ∧ ru = x := by
  by_cases hul : u < l.length
  · rw [List.getElem?_append_left hul] at hu
    exact Or.inl hu
  · by_cases hue : u = l.length
    · subst hue
      rw [List.getElem?_concat_length] at hu
      cases hu
      exact Or.inr ⟨rfl, rfl⟩
    · rw [List.getElem?_eq_none_iff.mpr (by simp; omega)] at hu
      cases hu

theorem baseInv_setRecKeep {s : LockState} {t : Tid} {r r2 : AcqRec}
    (h : BaseInv s) (ht : s.acqs[t]? = some r)
    (hkey : r2.key = r.key) (hSL : r2.startedLocked = false) (hSU : r2.startedUnlocked = false)
    (hdel : r2.deliveries.length = if r2.resolved then 1 else 0)
    (htm : r2.timerArmed = true → r2.resolved = false) :
    BaseInv { s with acqs := s.acqs.set t r2 } := by
  constructor
  · exact h.qkeysNodup
  · intro k q u hg hm
    by_cases hut : u = t
    · subst hut
      obtain ⟨r3, hr3, hk3, -, -⟩ := h.queuedWf k q u hg hm
      rw [ht] at hr3
      cases hr3
      exact ⟨r2, List.getElem?_set_self (getIdx_lt ht), by rw [hkey]; exact hk3, hSL, hSU⟩
    · obtain ⟨r3, hr3, hk3, hsl3, hsu3⟩ := h.queuedWf k q u hg hm
      exact ⟨r3, by rw [List.getElem?_set_ne (fun he => hut he.symm)]; exact hr3, hk3, hsl3, hsu3⟩
  · exact h.queuedNodup
  · exact h.queuedDisj
  · intro u ru hu
    by_cases hut : u = t
    · subst hut
      rw [List.getElem?_set_self (getIdx_lt ht)] at hu
      cases hu
      exact hdel
    · rw [List.getElem?_set_ne (fun he => hut he.symm)] at hu
      exact h.deliv u ru hu
  · intro u ru hu harm
    by_cases hut : u = t
    · subst hut
      rw [List.getElem?_set_self (getIdx_lt ht)] at hu
      cases hu
      exact ⟨htm harm, hSL, hSU⟩
    · rw [List.getElem?_set_ne (fun he => hut he.symm)] at hu
      exact h.timerInv u ru hu harm
  · intro u ru hu hst
    by_cases hut : u = t
    · subst hut
      rw [List.getElem?_set_self (getIdx_lt ht)] at hu
      cases hu
      rcases hst with hh | hh
      · rw [hSL] at hh
        simp at hh
      · rw [hSU] at hh
        simp at hh
    · rw [List.getElem?_set_ne (fun he => hut he.symm)] at hu
      exact h.noSelfTimeout u ru hu hst
  · intro u ru hu hres hst
    by_cases hut : u = t
    · subst hut
      rw [List.getElem?_set_self (getIdx_lt ht)] at hu
      cases hu
      rcases hst with hh | hh
      · rw [hSL] at hh
        simp at hh
      · rw [hSU] at hh
        simp at hh
    · rw [List.getElem?_set_ne (fun he => hut he.symm)] at hu
      exact h.resolvedCalled u ru hu hres hst

theorem baseInv_append {s : LockState} (h : BaseInv s) (rec0 : AcqRec)
    (hres : rec0.resolved = false) (hdeliv : rec0.deliveries = [])
    (hSL : rec0.startedLocked = false) (hSU : rec0.startedUnlocked = false) :
    BaseInv { s with acqs := s.acqs ++ [rec0] } := by
  constructor
  · exact h.qkeysNodup
  · intro k q u hg hm
    obtain ⟨r3, hr3, hk3, hsl3, hsu3⟩ := h.queuedWf k q u hg hm
    exact ⟨r3, by rw [List.getElem?_append_left (getIdx_lt hr3)]; exact hr3, hk3, hsl3, hsu3⟩
  · exact h.queuedNodup
  · exact h.queuedDisj
  · intro u ru hu
    rcases getQueueCases _ _ _ _ hu with hu2 | ⟨-, hrx⟩
    · exact h.deliv u ru hu2
    · subst hrx
      rw [hdeliv, hres]
      rfl
  · intro u ru hu harm
    rcases getQueueCases _ _ _ _ hu with hu2 | ⟨-, hrx⟩
    · exact h.timerInv u ru hu2 harm
    · subst hrx
      exact ⟨hres, hSL, hSU⟩
  · intro u ru hu hst
    rcases getQueueCases _ _ _ _ hu with hu2 | ⟨-, hrx⟩
    · exact h.noSelfTimeout u ru hu2 hst
    · subst hrx
      rcases hst with hh | hh
      · rw [hSL] at hh
        simp at hh
      · rw [hSU] at hh
        simp at hh
  · intro u ru hu hres2 hst
    rcases getQueueCases _ _ _ _ hu with hu2 | ⟨-, hrx⟩
    · exact h.resolvedCalled u ru hu2 hres2 hst
    · subst hrx
      rw [hres] at hres2
      simp at hres2

theorem baseInv_setEmptyQueue {s : LockState} (h : BaseInv s) (k : Key) :
    BaseInv { s with queues := s.queues.set k [] } := by
  constructor
  · exact MapPolyfill.keys_set_nodup s.queues k [] h.qkeysNodup
  · intro k2 q2 u hg hm
    by_cases hk : k2 = k
    · rw [hk, MapPolyfill.get_set_self] at hg
      cases hg
      cases hm
    · rw [MapPolyfill.get_set_ne _ _ _ _ hk] at hg
      exact h.queuedWf k2 q2 u hg hm
  · intro k2 q2 hg
    by_cases hk : k2 = k
    · rw [hk, MapPolyfill.get_set_self] at hg
      cases hg
      exact List.nodup_nil
    · rw [MapPolyfill.get_set_ne _ _ _ _ hk] at hg
      exact h.queuedNodup k2 q2 hg
  · intro k2 q2 k3 q3 u hg hg2 hm hm2
    by_cases hk : k2 = k
    · rw [hk, MapPolyfill.get_set_self] at hg
      cases hg
      cases hm
    · rw [MapPolyfill.get_set_ne _ _ _ _ hk] at hg
      by_cases hk3 : k3 = k
      · rw [hk3, MapPolyfill.get_set_self] at hg2
        cases hg2
        cases hm2
      · rw [MapPolyfill.get_set_ne _ _ _ _ hk3] at hg2
        exact h.queuedDisj k2 q2 k3 q3 u hg hg2 hm hm2
  · exact h.deliv
  · exact h.timerInv
  · exact h.noSelfTimeout
  · exact h.resolvedCalled

theorem doneLocked_inv {s : LockState} {t : Tid} {r : AcqRec}
    (hB : BaseInv s) (hMx : ∀ k2, MutexAt s k2)
    (hr : s.acqs[t]? = some r) (hSL : r.startedLocked = true) (hres : r.resolved = false)
    (hcalled : r.called = true) (res : Option Outcome)
    (hres_ne : res.getD (Except.ok none) ≠ Except.error JsErr.timedOut) :
    EngineInv (doneLocked s t res) := by
  have hkeyOf := keyOf_eq hr
  have htmF : r.timerArmed = false := by
    cases harm : r.timerArmed
    · rfl
    · obtain ⟨-, hsl, -⟩ := hB.timerInv t r hr harm
      rw [hSL] at hsl
      simp at hsl
  have hqd := started_not_queued hB hr (Or.inl hSL)
  have hdelivNil : r.deliveries = [] := by
    refine List.length_eq_zero.mp ?_
    have hh := hB.deliv t r hr
    rw [if_neg (by simp [hres])] at hh
    exact hh
  have ha1 := doneCore_acqs_unresolved true res hr hres
  have hq1 := doneCore_queues_true res hr
  have hBm : BaseInv { s with acqs := (s.acqs.set t
      { r with resolved := true,
               deliveries := r.deliveries ++ [res.getD (Except.ok none)] }) } := by
    refine baseInv_setRec hB hr hqd ?_ ?_ ?_ ?_
    · simp [hdelivNil]
    · intro harm
      simp [htmF] at harm
    · intro hst
      simp [hdelivNil]
      exact fun hh => hres_ne hh.symm
    · intro h1 h2
      exact hcalled
  have hpk : runningLockedFor r.key r = true := by
    simp [runningLockedFor, hSL, hres]
  have hcnt1 : holdersCount s r.key = 1 := by
    have hge := one_le_countP (runningLockedFor r.key) hr hpk
    have hmx := hMx r.key
    unfold MutexAt at hmx
    unfold holdersCount at hmx ⊢
    split at hmx
    · exact hmx
    · omega
  have hhas : s.queues.has r.key = true := by
    cases hcs : s.queues.has r.key
    · have hmx := hMx r.key
      unfold MutexAt at hmx
      rw [hcs] at hmx
      rw [hcnt1] at hmx
      simp at hmx
    · rfl
  obtain ⟨q0, hq0⟩ : ∃ q0, s.queues.get r.key = some q0 := by
    have hh := MapPolyfill.has_eq s.queues r.key
    rw [hhas] at hh
    exact Option.isSome_iff_exists.mp hh.symm
  have hpD : runningLockedFor r.key
      ({ r with resolved := true,
                deliveries := r.deliveries ++ [res.getD (Except.ok none)] } : AcqRec) = false := by
    simp [runningLockedFor]
  have hcnt0 : (s.acqs.set t
      { r with resolved := true,
               deliveries := r.deliveries ++ [res.getD (Except.ok none)] }).countP
        (runningLockedFor r.key) = 0 := by
    have hb := countP_set_balance (runningLockedFor r.key) s.acqs t
      { r with resolved := true,
               deliveries := r.deliveries ++ [res.getD (Except.ok none)] } r hr
    rw [hpk, hpD] at hb
    simp at hb
    unfold holdersCount at hcnt1
    omega
  have hcntne : ∀ k2, k2 ≠ r.key → (s.acqs.set t
      { r with resolved := true,
               deliveries := r.deliveries ++ [res.getD (Except.ok none)] }).countP
        (runningLockedFor k2) = holdersCount s k2 := by
    intro k2 hk
    refine holdersCount_set_same hr _ k2 ?_
    have hk1 : (r.key == k2) = false := by
      rw [beq_eq_false_iff_ne]
      exact fun he => hk he.symm
    simp [runningLockedFor, hk1]
  rw [doneLocked]
  rw [hkeyOf, hq1, hq0]
  by_cases h00 : q0 = []
  · subst h00
    rw [if_pos rfl]
    rw [MapPolyfill.get_delete_self s.queues r.key hB.qkeysNodup]
    dsimp only
    constructor
    · exact baseInv_ext (baseInv_deleteQueue hBm r.key)
        (by rw [hq1, hq0, if_pos rfl]) ha1
    · intro k2
      unfold MutexAt
      unfold holdersCount
      rw [ha1]
      rw [show (doneCore s t true res).queues = s.queues.delete r.key from
        (by rw [hq1, hq0, if_pos rfl])]
      by_cases hk : k2 = r.key
      · subst hk
        rw [MapPolyfill.has_delete_self s.queues r.key hB.qkeysNodup]
        simpa using hcnt0
      · rw [MapPolyfill.has_delete_ne _ _ _ hk, hcntne k2 hk]
        exact hMx k2
  · rw [if_neg (by simp [h00])]
    rw [hq0]
    dsimp only
    refine advanceLoop_inv r.key q0 _ ?_ ?_ ?_ ?_
    · exact baseInv_ext hBm (by rw [hq1, hq0, if_neg (by simp [h00])]) ha1
    · intro k2 hk
      unfold holdersCount
      rw [ha1]
      rw [show (doneCore s t true res).queues = s.queues from
        (by rw [hq1, hq0, if_neg (by simp [h00])])]
      rw [hcntne k2 hk]
      exact hMx k2
    · unfold holdersCount
      rw [ha1]
      exact hcnt0
    · refine Or.inl ⟨?_, h00⟩
      rw [show (doneCore s t true res).queues = s.queues from
        (by rw [hq1, hq0, if_neg (by simp [h00])])]
      exact hq0

theorem settle_inv {s : LockState} {t : Tid} {rec0 : AcqRec}
    (hB : BaseInv s) (hMx : ∀ k2, MutexAt s k2)
    (hr : s.acqs[t]? = some rec0)
    (hstarted : rec0.startedLocked = true ∨ rec0.startedUnlocked = true)
    (r : SettleArg) :
    EngineInv (settle s t r) := by
  unfold settle
  rw [hr]
  dsimp only
  by_cases hcal : rec0.called = true
  · rw [if_pos hcal]
    exact ⟨hB, hMx⟩
  · rw [if_neg hcal]
    have hcalF : rec0.called = false := by
      cases hc : rec0.called
      · rfl
      · exact absurd hc hcal
    have hresF : rec0.resolved = false := by
      cases hres : rec0.resolved
      · rfl
      · have hcc := hB.resolvedCalled t rec0 hr hres hstarted
        rw [hcalF] at hcc
        simp at hcc
    have hdelivNil : rec0.deliveries = [] := by
      refine List.length_eq_zero.mp ?_
      have hh := hB.deliv t rec0 hr
      rw [if_neg (by simp [hresF])] at hh
      exact hh
    have htmF : rec0.timerArmed = false := by
      cases harm : rec0.timerArmed
      · rfl
      · obtain ⟨-, hsl, hsu⟩ := hB.timerInv t rec0 hr harm
        rcases hstarted with hh | hh
        · rw [hh] at hsl
          simp at hsl
        · rw [hh] at hsu
          simp at hsu
    have hs1a := setCalled_acqs hr
    have hlook1 : (setCalled s t).acqs[t]? = some { rec0 with called := true } := by
      rw [hs1a]
      exact List.getElem?_set_self (getIdx_lt hr)
    have hqd := started_not_queued hB hr hstarted
    have hB1 : BaseInv (setCalled s t) := by
      have hBmid : BaseInv { s with acqs := (s.acqs.set t { rec0 with called := true }) } := by
        refine baseInv_setRec hB hr hqd ?_ ?_ ?_ ?_
        · simpa using hB.deliv t rec0 hr
        · intro harm
          simp only at harm
          simp [htmF] at harm
        · intro hst
          simpa using hB.noSelfTimeout t rec0 hr (by simpa using hst)
        · intro h1 h2
          rfl
      exact baseInv_ext hBmid (setCalled_queues s t) hs1a
    have hMx1 : ∀ k2, MutexAt (setCalled s t) k2 := by
      intro k2
      unfold MutexAt holdersCount
      rw [hs1a, setCalled_queues]
      rw [holdersCount_set_same hr _ k2 (by simp [runningLockedFor])]
      exact hMx k2
    by_cases hSL : rec0.startedLocked = true
    · rw [if_pos hSL]
      refine doneLocked_inv hB1 hMx1 hlook1 ?_ ?_ ?_ (some (toOutcome r)) ?_
      · simpa using hSL
      · simpa using hresF
      · rfl
      · simpa using toOutcome_ne_timedOut r
    · rw [if_neg hSL]
      have hSLF : rec0.startedLocked = false := by
        cases hc : rec0.startedLocked
        · rfl
        · exact absurd hc hSL
      have ha2 := doneCore_acqs_unresolved false (some (toOutcome r)) hlook1
        (by simpa using hresF)
      have haF : (doneCore (setCalled s t) t false (some (toOutcome r))).acqs =
          s.acqs.set t ({ rec0 with called := true, resolved := true,
                                    deliveries := rec0.deliveries ++ [toOutcome r] }) := by
        rw [ha2, hs1a, List.set_set]
        simp
      constructor
      · have hBmid2 : BaseInv { s with acqs := (s.acqs.set t
            { rec0 with called := true, resolved := true,
                        deliveries := rec0.deliveries ++ [toOutcome r] }) } := by
          refine baseInv_setRec hB hr hqd ?_ ?_ ?_ ?_
          · simp [hdelivNil]
          · intro harm
            simp only at harm
            simp [htmF] at harm
          · intro hst
            simp [hdelivNil, toOutcome_ne_timedOut r, timedOut_ne_toOutcome r]
          · intro h1 h2
            rfl
        exact baseInv_ext hBmid2
          (by rw [doneCore_queues_false, setCalled_queues]) haF
      · intro k2
        unfold MutexAt holdersCount
        rw [haF]
        rw [doneCore_queues_false, setCalled_queues]
        rw [holdersCount_set_same hr _ k2 (by simp [runningLockedFor, hSLF])]
        exact hMx k2

theorem timeoutFire_inv {s : LockState} {t : Tid} {rec0 : AcqRec}
    (hB : BaseInv s) (hMx : ∀ k2, MutexAt s k2)
    (hr : s.acqs[t]? = some rec0) (harm : rec0.timerArmed = true) :
    EngineInv (timeoutFire s t) := by
  obtain ⟨hres, hSL, hSU⟩ := hB.timerInv t rec0 hr harm
  have hdelivNil : rec0.deliveries = [] := by
    refine List.length_eq_zero.mp ?_
    have hh := hB.deliv t rec0 hr
    rw [if_neg (by simp [hres])] at hh
    exact hh
  unfold timeoutFire
  rw [hr]
  dsimp only
  have hlook1 : ({ s with acqs := s.acqs.set t { rec0 with timerArmed := false } } :
      LockState).acqs[t]? = some { rec0 with timerArmed := false } :=
    List.getElem?_set_self (getIdx_lt hr)
  have ha2 := doneCore_acqs_unresolved false (some (.error .timedOut)) hlook1
    (by simpa using hres)
  have haF : (doneCore { s with acqs := s.acqs.set t { rec0 with timerArmed := false } } t
      false (some (.error .timedOut))).acqs =
        s.acqs.set t ({ rec0 with timerArmed := false, resolved := true,
                                  deliveries := rec0.deliveries ++
                                    [Except.error JsErr.timedOut] }) := by
    rw [ha2]
    dsimp only
    rw [List.set_set]
    simp
  have hqF : (doneCore { s with acqs := s.acqs.set t { rec0 with timerArmed := false } } t
      false (some (.error .timedOut))).queues = s.queues := by
    rw [doneCore_queues_false]
  constructor
  · have hBmid : BaseInv { s with acqs := (s.acqs.set t
        { rec0 with timerArmed := false, resolved := true,
                    deliveries := rec0.deliveries ++ [Except.error JsErr.timedOut] }) } := by
      refine baseInv_setRecKeep hB hr rfl (by simpa using hSL) (by simpa using hSU) ?_ ?_
      · simp [hdelivNil]
      · intro hh
        simp at hh
    exact baseInv_ext hBmid hqF haF
  · intro k2
    unfold MutexAt holdersCount
    rw [haF, hqF]
    rw [holdersCount_set_same hr _ k2 (by simp [runningLockedFor, hSL])]
    exact hMx k2

theorem startCall_acqs {s : LockState} {t : Tid} {r : AcqRec} (locked : Bool)
    (hr : s.acqs[t]? = some r) :
    (setCalled (startTask s t locked) t).acqs =
      s.acqs.set t { r with timerArmed := false,
                            startedLocked := r.startedLocked || locked,
                            startedUnlocked := r.startedUnlocked || !locked,
                            called := true } := by
  have hlt : t < s.acqs.length := getIdx_lt hr
  have h1 := startTask_acqs locked hr
  have hlook1 : (startTask s t locked).acqs[t]? =
      some { r with timerArmed := false, startedLocked := r.startedLocked || locked,
                    startedUnlocked := r.startedUnlocked || !locked } := by
    rw [h1]
    exact List.getElem?_set_self hlt
  rw [setCalled_acqs hlook1, h1, List.set_set]

theorem startCall_lookup {s : LockState} {t : Tid} {r : AcqRec} (locked : Bool)
    (hr : s.acqs[t]? = some r) :
    (setCalled (startTask s t locked) t).acqs[t]? =
      some { r with timerArmed := false,
                    startedLocked := r.startedLocked || locked,
                    startedUnlocked := r.startedUnlocked || !locked,
                    called := true } := by
  rw [startCall_acqs locked hr]
  exact List.getElem?_set_self (getIdx_lt hr)

theorem reentrantCond_acqs (s : LockState) (a : List AcqRec) (k : Key) (ctx : Option Nat) :
    reentrantCond { s with acqs := a } k ctx = reentrantCond s k ctx := rfl

theorem baseInv_enqueue {s : LockState} {k : Key} {q : List Tid} {t : Tid} {rec0 : AcqRec}
    (hB : BaseInv s) (hgq : s.queues.get k = some q)
    (hlook : s.acqs[t]? = some rec0) (hkey : rec0.key = k)
    (hSL : rec0.startedLocked = false) (hSU : rec0.startedUnlocked = false)
    (hfresh : ∀ k2 q2, s.queues.get k2 = some q2 → t ∉ q2)
    (q' : List Tid) (hq' : q' = t :: q ∨ q' = q ++ [t]) :
    BaseInv { s with queues := s.queues.set k q' } := by
  have hmem : ∀ u, u ∈ q' → u = t ∨ u ∈ q := by
    intro u hu
    rcases hq' with rfl | rfl
    · rcases List.mem_cons.mp hu with h | h
      · exact Or.inl h
      · exact Or.inr h
    · rcases List.mem_append.mp hu with h | h
      · exact Or.inr h
      · simp at h
        exact Or.inl h
  have htq : t ∉ q := hfresh k q hgq
  have hndq' : q'.Nodup := by
    have hndq := hB.queuedNodup k q hgq
    rcases hq' with rfl | rfl
    · exact List.nodup_cons.mpr ⟨htq, hndq⟩
    · rw [List.nodup_append]
      refine ⟨hndq, List.nodup_singleton t, ?_⟩
      intro a ha hb
      simp at hb
      subst hb
      exact htq ha
  constructor
  · exact MapPolyfill.keys_set_nodup s.queues k q' hB.qkeysNodup
  · intro k2 q2 u hg hm
    by_cases hk : k2 = k
    · rw [hk, MapPolyfill.get_set_self] at hg
      cases hg
      rcases hmem u hm with rfl | huq
      · exact ⟨rec0, hlook, by rw [hkey, hk], hSL, hSU⟩
      · obtain ⟨r3, hr3, hk3, hsl3, hsu3⟩ := hB.queuedWf k q u hgq huq
        exact ⟨r3, hr3, by rw [hk3, hk], hsl3, hsu3⟩
    · rw [MapPolyfill.get_set_ne _ _ _ _ hk] at hg
      exact hB.queuedWf k2 q2 u hg hm
  · intro k2 q2 hg
    by_cases hk : k2 = k
    · rw [hk, MapPolyfill.get_set_self] at hg
      cases hg
      exact hndq'
    · rw [MapPolyfill.get_set_ne _ _ _ _ hk] at hg
      exact hB.queuedNodup k2 q2 hg
  · intro k2 q2 k3 q3 u hg hg2 hm hm2
    by_cases hk : k2 = k
    · by_cases hk3 : k3 = k
      · exact hk.trans hk3.symm
      · rw [hk, MapPolyfill.get_set_self] at hg
        cases hg
        rw [MapPolyfill.get_set_ne _ _ _ _ hk3] at hg2
        rcases hmem u hm with rfl | huq
        · exact absurd hm2 (hfresh k3 q3 hg2)
        · exact hk.trans (hB.queuedDisj k q k3 q3 u hgq hg2 huq hm2)
    · rw [MapPolyfill.get_set_ne _ _ _ _ hk] at hg
      by_cases hk3 : k3 = k
      · rw [hk3, MapPolyfill.get_set_self] at hg2
        cases hg2
        rcases hmem u hm2 with rfl | huq
        · exact absurd hm (hfresh k2 q2 hg)
        · exact (hB.queuedDisj k2 q2 k q u hg hgq hm huq).trans hk3.symm
      · rw [MapPolyfill.get_set_ne _ _ _ _ hk3] at hg2
        exact hB.queuedDisj k2 q2 k3 q3 u hg hg2 hm hm2
  · exact hB.deliv
  · exact hB.timerInv
  · exact hB.noSelfTimeout
  · exact hB.resolvedCalled


theorem execEntry_fresh_inv {s1 : LockState} {t : Tid} {rec0 : AcqRec}
    (hB1 : BaseInv s1)
    (hlook : s1.acqs[t]? = some rec0)
    (hSL : rec0.startedLocked = false) (hSU : rec0.startedUnlocked = false)
    (hres : rec0.resolved = false) (hdeliv : rec0.deliveries = [])
    (hget1 : s1.queues.get rec0.key = some [])
    (hqd : ∀ k2 q2, s1.queues.get k2 = some q2 → t ∉ q2)
    (hMxE : ∀ k2, k2 ≠ rec0.key → holdersCount s1 k2 = if s1.queues.has k2 then 1 else 0)
    (hck : holdersCount s1 rec0.key = 0) :
    EngineInv (execEntry s1 t true) := by
  unfold execEntry
  rw [hlook]
  dsimp only
  rw [if_neg (by simp [hres])]
  have hprF : ∀ k2, runningLockedFor k2 rec0 = false := by
    intro k2
    simp [runningLockedFor, hSL]
  have hC : EngineInv (startTask s1 t true) := by
    have hsta := startTask_acqs true hlook
    constructor
    · have hBmid : BaseInv { s1 with acqs := (s1.acqs.set t
          { rec0 with timerArmed := false, startedLocked := rec0.startedLocked || true,
                      startedUnlocked := rec0.startedUnlocked || !true }) } := by
        refine baseInv_setRec hB1 hlook hqd ?_ ?_ ?_ ?_
        · simp [hres, hdeliv]
        · intro hh
          simp at hh
        · intro hh
          simp [hdeliv]
        · intro h1 h2
          simp [hres] at h1
      exact baseInv_ext hBmid (startTask_queues _ _ _) hsta
    · intro k2
      unfold MutexAt holdersCount
      rw [hsta, startTask_queues]
      by_cases hk : k2 = rec0.key
      · subst hk
        rw [MapPolyfill.has_of_get hget1]
        rw [holdersCount_set_incr hlook _ rec0.key (hprF rec0.key)
          (by simp [runningLockedFor, hSL, hres])]
        simp [hck]
      · rw [holdersCount_set_same hlook _ k2 ?_]
        · exact hMxE k2 hk
        · have hkk : (rec0.key == k2) = false := by
            rw [beq_eq_false_iff_ne]
            exact fun he => hk he.symm
          simp [runningLockedFor, hkk, hSL]
  cases hbeh : rec0.beh with
  | syncCb rr =>
    have hlook3 := startCall_lookup true hlook
    have hsca := startCall_acqs true hlook
    have hB3 : BaseInv (setCalled (startTask s1 t true) t) := by
      have hBmid : BaseInv { s1 with acqs := (s1.acqs.set t
          { rec0 with timerArmed := false, startedLocked := rec0.startedLocked || true,
                      startedUnlocked := rec0.startedUnlocked || !true, called := true }) } := by
        refine baseInv_setRec hB1 hlook hqd ?_ ?_ ?_ ?_
        · simp [hres, hdeliv]
        · intro hh
          simp at hh
        · intro hh
          simp [hdeliv]
        · intro h1 h2
          simp [hres] at h1
      exact baseInv_ext hBmid (by rw [setCalled_queues, startTask_queues]) hsca
    have hMx3 : ∀ k2, MutexAt (setCalled (startTask s1 t true) t) k2 := by
      intro k2
      unfold MutexAt holdersCount
      rw [hsca, setCalled_queues, startTask_queues]
      by_cases hk : k2 = rec0.key
      · subst hk
        rw [MapPolyfill.has_of_get hget1]
        rw [holdersCount_set_incr hlook _ rec0.key (hprF rec0.key)
          (by simp [runningLockedFor, hSL, hres])]
        simp [hck]
      · rw [holdersCount_set_same hlook _ k2 ?_]
        · exact hMxE k2 hk
        · have hkk : (rec0.key == k2) = false := by
            rw [beq_eq_false_iff_ne]
            exact fun he => hk he.symm
          simp [runningLockedFor, hkk, hSL]
    exact doneLocked_inv hB3 hMx3 hlook3 (by simp) (by simpa using hres) rfl
      (some (toOutcome rr)) (by simpa using toOutcome_ne_timedOut rr)
  | asyncCb => exact hC
  | promiseFn pre => exact hC

theorem execEntry_reentrant_inv {s0 : LockState} {t : Tid} {rec0 : AcqRec}
    (hB0 : BaseInv s0) (hMx0 : ∀ k2, MutexAt s0 k2)
    (hlook : s0.acqs[t]? = some rec0)
    (hSL : rec0.startedLocked = false) (hSU : rec0.startedUnlocked = false)
    (hres : rec0.resolved = false) (hdeliv : rec0.deliveries = [])
    (hqd : ∀ k2 q2, s0.queues.get k2 = some q2 → t ∉ q2) :
    EngineInv (execEntry s0 t false) := by
  unfold execEntry
  rw [hlook]
  dsimp only
  rw [if_neg (by simp [hres])]
  have hC : EngineInv (startTask s0 t false) := by
    have hsta := startTask_acqs false hlook
    constructor
    · have hBmid : BaseInv { s0 with acqs := (s0.acqs.set t
          { rec0 with timerArmed := false, startedLocked := rec0.startedLocked || false,
                      startedUnlocked := rec0.startedUnlocked || !false }) } := by
        refine baseInv_setRec hB0 hlook hqd ?_ ?_ ?_ ?_
        · simp [hres, hdeliv]
        · intro hh
          simp at hh
        · intro hh
          simp [hdeliv]
        · intro h1 h2
          simp [hres] at h1
      exact baseInv_ext hBmid (startTask_queues _ _ _) hsta
    · intro k2
      unfold MutexAt holdersCount
      rw [hsta, startTask_queues]
      rw [holdersCount_set_same hlook _ k2 (by simp [runningLockedFor, hSL])]
      exact hMx0 k2
  cases hbeh : rec0.beh with
  | syncCb rr =>
    dsimp only
    rw [if_neg (by simp)]
    have hlook3 := startCall_lookup false hlook
    have hsca := startCall_acqs false hlook
    have ha2 := doneCore_acqs_unresolved false (some (toOutcome rr)) hlook3
      (by simpa using hres)
    have haF : (doneCore (setCalled (startTask s0 t false) t) t false
        (some (toOutcome rr))).acqs =
          s0.acqs.set t ({ rec0 with timerArmed := false,
                                     startedLocked := rec0.startedLocked || false,
                                     startedUnlocked := rec0.startedUnlocked || !false,
                                     called := true, resolved := true,
                                     deliveries := rec0.deliveries ++ [toOutcome rr] }) := by
      rw [ha2, hsca, List.set_set]
      simp
    have hqF : (doneCore (setCalled (startTask s0 t false) t) t false
        (some (toOutcome rr))).queues = s0.queues := by
      rw [doneCore_queues_false, setCalled_queues, startTask_queues]
    constructor
    · have hBmid : BaseInv { s0 with acqs := (s0.acqs.set t
          { rec0 with timerArmed := false, startedLocked := rec0.startedLocked || false,
                      startedUnlocked := rec0.startedUnlocked || !false,
                      called := true, resolved := true,
                      deliveries := rec0.deliveries ++ [toOutcome rr] }) } := by
        refine baseInv_setRec hB0 hlook hqd ?_ ?_ ?_ ?_
        · simp [hdeliv]
        · intro hh
          simp at hh
        · intro hh
          simp [hdeliv, toOutcome_ne_timedOut rr, timedOut_ne_toOutcome rr]
        · intro h1 h2
          rfl
      exact baseInv_ext hBmid hqF haF
    · intro k2
      unfold MutexAt holdersCount
      rw [haF, hqF]
      rw [holdersCount_set_same hlook _ k2 (by simp [runningLockedFor, hSL])]
      exact hMx0 k2
  | asyncCb => exact hC
  | promiseFn pre => exact hC

theorem countP_set_same_list {α : Type} (p : α → Bool) (l : List α) (i : Nat) (x y : α)
    (h : l[i]? = some y) (hp : p x = p y) : (l.set i x).countP p = l.countP p := by
  have hb := countP_set_balance p l i x y h
  rw [hp] at hb
  omega

theorem acquire_inv (s : LockState) (k : Key) (beh : Behavior) (ctx : Option Nat) (opts : Opts)
    (hB : BaseInv s) (hMx : ∀ k2, MutexAt s k2) :
    EngineInv (acquire s k beh ctx opts) := by
  have hlookt : (s.acqs ++ [({ key := k, ctx := ctx, beh := beh } : AcqRec)])[s.acqs.length]? =
      some { key := k, ctx := ctx, beh := beh } := List.getElem?_concat_length _ _
  have hB0 : BaseInv { s with acqs := s.acqs ++
      [({ key := k, ctx := ctx, beh := beh } : AcqRec)] } :=
    baseInv_append hB _ rfl rfl rfl rfl
  have hcnt0 : ∀ k2, (s.acqs ++
      [({ key := k, ctx := ctx, beh := beh } : AcqRec)]).countP (runningLockedFor k2) =
        holdersCount s k2 := by
    intro k2
    unfold holdersCount
    rw [List.countP_append]
    simp [runningLockedFor]
  have hMx0 : ∀ k2, MutexAt { s with acqs := s.acqs ++
      [({ key := k, ctx := ctx, beh := beh } : AcqRec)] } k2 := by
    intro k2
    unfold MutexAt holdersCount
    rw [hcnt0]
    exact hMx k2
  have hfresh0 : ∀ k2 q2, s.queues.get k2 = some q2 → s.acqs.length ∉ q2 := by
    intro k2 q2 hg hm
    obtain ⟨r3, hr3, -, -, -⟩ := hB.queuedWf k2 q2 _ hg hm
    have := getIdx_lt hr3
    omega
  unfold acquire
  dsimp only
  by_cases hhf : s.queues.has k = false
  · rw [if_pos hhf]
    have hck0 : holdersCount s k = 0 := by
      have hmx := hMx k
      unfold MutexAt at hmx
      rw [hhf] at hmx
      simpa using hmx
    refine execEntry_fresh_inv (baseInv_setEmptyQueue hB0 k) hlookt rfl rfl rfl rfl
      (MapPolyfill.get_set_self s.queues k []) ?_ ?_ ?_
    · intro k2 q2 hg hm
      by_cases hk : k2 = k
      · rw [hk, MapPolyfill.get_set_self] at hg
        cases hg
        cases hm
      · rw [MapPolyfill.get_set_ne _ _ _ _ hk] at hg
        exact hfresh0 k2 q2 hg hm
    · intro k2 hk
      unfold holdersCount
      dsimp only
      rw [hcnt0 k2]
      rw [MapPolyfill.has_set_ne _ _ _ _ hk]
      have hmx := hMx k2
      unfold MutexAt at hmx
      exact hmx
    · unfold holdersCount
      dsimp only
      rw [hcnt0 k]
      exact hck0
  · rw [if_neg hhf]
    have hhas : s.queues.has k = true := by
      cases hc : s.queues.has k
      · exact absurd hc hhf
      · rfl
    rw [reentrantCond_acqs]
    by_cases hre : reentrantCond s k ctx = true
    · rw [if_pos hre]
      refine execEntry_reentrant_inv hB0 hMx0 hlookt rfl rfl rfl rfl ?_
      intro k2 q2 hg hm
      exact hfresh0 k2 q2 hg hm
    · rw [if_neg hre]
      obtain ⟨q, hgq⟩ : ∃ q, s.queues.get k = some q := by
        have hh := MapPolyfill.has_eq s.queues k
        rw [hhas] at hh
        exact Option.isSome_iff_exists.mp hh.symm
      rw [hgq]
      dsimp only
      by_cases hov : s.maxPending ≤ q.length
      · rw [if_pos hov]
        have hlookt0 : ({ s with acqs := s.acqs ++
            [({ key := k, ctx := ctx, beh := beh } : AcqRec)] } : LockState).acqs[
              s.acqs.length]? = some { key := k, ctx := ctx, beh := beh } := hlookt
        have ha2 := doneCore_acqs_unresolved false (some (.error .tooManyPending)) hlookt0 rfl
        constructor
        · have hBmid : BaseInv { s with acqs := ((s.acqs ++
              [({ key := k, ctx := ctx, beh := beh } : AcqRec)]).set s.acqs.length
                ({ key := k, ctx := ctx, beh := beh, resolved := true,
                   deliveries := [Except.error JsErr.tooManyPending] } : AcqRec)) } := by
            refine baseInv_setRecKeep hB0 hlookt rfl rfl rfl ?_ ?_
            · simp
            · intro hh
              simp at hh
          exact baseInv_ext hBmid (doneCore_queues_false _ _ _) ha2
        · intro k2
          unfold MutexAt holdersCount
          rw [ha2, doneCore_queues_false]
          dsimp only
          rw [countP_set_same_list _ _ _ _ _ hlookt (by simp [runningLockedFor])]
          rw [hcnt0 k2]
          have hmx := hMx k2
          unfold MutexAt at hmx
          exact hmx
      · rw [if_neg hov]
        have hq'or : (if opts.skipQueue = true then s.acqs.length :: q
            else q ++ [s.acqs.length]) = s.acqs.length :: q ∨
              (if opts.skipQueue = true then s.acqs.length :: q
                else q ++ [s.acqs.length]) = q ++ [s.acqs.length] := by
          by_cases hsk : opts.skipQueue = true
          · rw [if_pos hsk]
            exact Or.inl rfl
          · rw [if_neg hsk]
            exact Or.inr rfl
        have hBq := baseInv_enqueue hB0 hgq hlookt rfl rfl rfl hfresh0 _ hq'or
        by_cases htmo : jsOrDefault opts.timeout s.lockTimeout ≠ 0
        · rw [if_pos htmo]
          constructor
          · exact baseInv_setRecKeep hBq hlookt rfl rfl rfl (by simp) (fun hh => rfl)
          · intro k2
            unfold MutexAt holdersCount
            dsimp only
            rw [countP_set_same_list _ _ _ _ _ hlookt (by simp [runningLockedFor])]
            rw [hcnt0 k2]
            by_cases hk : k2 = k
            · subst hk
              rw [MapPolyfill.has_of_get (MapPolyfill.get_set_self s.queues k2 _)]
              have hmx := hMx k2
              unfold MutexAt at hmx
              rw [hhas] at hmx
              simpa using hmx
            · rw [MapPolyfill.has_set_ne _ _ _ _ hk]
              have hmx := hMx k2
              unfold MutexAt at hmx
              exact hmx
        · rw [if_neg htmo]
          refine ⟨hBq, fun k2 => ?_⟩
          unfold MutexAt holdersCount
          dsimp only
          rw [hcnt0 k2]
          by_cases hk : k2 = k
          · subst hk
            rw [MapPolyfill.has_of_get (MapPolyfill.get_set_self s.queues k2 _)]
            have hmx := hMx k2
            unfold MutexAt at hmx
            rw [hhas] at hmx
            simpa using hmx
          · rw [MapPolyfill.has_set_ne _ _ _ _ hk]
            have hmx := hMx k2
            unfold MutexAt at hmx
            exact hmx

theorem initState_inv (ot om : Option Nat) (r : Bool) : EngineInv (initState ot om r) := by
  constructor
  · constructor
    · simp [initState]
    · intro k q t hg hm
      simp [initState, MapPolyfill.get] at hg
    · intro k q hg
      simp [initState, MapPolyfill.get] at hg
    · intro k q k2 q2 t hg hg2 hm hm2
      simp [initState, MapPolyfill.get] at hg
    · intro t rr hr
      simp [initState] at hr
    · intro t rr hr
      simp [initState] at hr
    · intro t rr hr
      simp [initState] at hr
    · intro t rr hr
      simp [initState] at hr
  · intro k2
    unfold MutexAt holdersCount
    simp [initState, MapPolyfill.has]

theorem step_inv {s s2 : LockState} (h : Step s s2) (hI : EngineInv s) : EngineInv s2 := by
  cases h with
  | acquireStep k beh ctx opts => exact acquire_inv s k beh ctx opts hI.1 hI.2
  | settleStep t r rec0 hrec hstarted hbeh => exact settle_inv hI.1 hI.2 hrec hstarted r
  | timeoutStep t rec0 hrec harmed => exact timeoutFire_inv hI.1 hI.2 hrec harmed

theorem reachable_inv {s : LockState} (h : Reachable s) : EngineInv s := by
  obtain ⟨ot, om, r, hsteps⟩ := h
  induction hsteps with
  | refl => exact initState_inv ot om r
  | tail hst hstep ih => exact step_inv hstep ih

/-! ### The synchronous completion chain of C9 -/

theorem chainBase_eq (n : Nat) :
    acquire (initState none (some (n + 1)) false) 1 (.promiseFn none) none {} =
      { queues := ⟨[(1, [])]⟩, domains := ⟨[(1, none)]⟩,
        acqs := [{ key := 1, ctx := none, beh := .promiseFn none, startedLocked := true }],
        started := [0], lockTimeout := 0, maxPending := n + 1, domainReentrant := false } := by
  rfl

theorem chainAcquires_spec (n : Nat) : ∀ m, m ≤ n →
    chainAcquires m (acquire (initState none (some (n + 1)) false) 1
        (.promiseFn none) none {}) =
      { queues := ⟨[(1, List.range' 1 m)]⟩, domains := ⟨[(1, none)]⟩,
        acqs := { key := 1, ctx := none, beh := .promiseFn none, startedLocked := true } ::
          List.replicate m { key := 1, ctx := none, beh := .syncCb (.ok none) },
        started := [0], lockTimeout := 0, maxPending := n + 1, domainReentrant := false } := by
  intro m
  induction m with
  | zero =>
    intro h
    exact chainBase_eq n
  | succ m ih =>
    intro h
    rw [chainAcquires, ih (by omega)]
    unfold acquire
    dsimp only
    rw [if_neg (by simp [MapPolyfill.has])]
    rw [if_neg (by simp [reentrantCond])]
    rw [show (⟨[(1, List.range' 1 m)]⟩ : MapPolyfill (List Tid)).get 1 =
      some (List.range' 1 m) from by simp [MapPolyfill.get]]
    dsimp only
    rw [if_neg (by simp [List.length_range']; omega)]
    rw [if_neg (by simp [jsOrDefault])]
    simp only [MapPolyfill.set, MapPolyfill.setGo]
    congr 1
    · simp [List.range'_1_concat, List.length_replicate]
      omega
    · simp [List.replicate_succ']

theorem advanceDepth_sync (k : Key) : ∀ (q : List Tid) (s : LockState),
    q.Nodup →
    (∀ u ∈ q, ∃ ru rru, s.acqs[u]? = some ru ∧ ru.resolved = false ∧ ru.beh = .syncCb rru) →
    advanceDepth s k q = q.length
  | [], s, _, _ => rfl
  | u :: rest, s, hnd, hall => by
    obtain ⟨ru, rru, hru, hres, hbeh⟩ := hall u (List.mem_cons_self u rest)
    rw [advanceDepth]
    have hru1 : ({ s with queues := s.queues.set k rest } : LockState).acqs[u]? = some ru := hru
    rw [hru1]
    dsimp only
    rw [if_neg (by simp [hres])]
    rw [hbeh]
    dsimp only
    have hacqs := syncRun_acqs hru1 hres rru
    have hrest : ∀ v ∈ rest, ∃ rv rrv,
        (doneCore (setCalled (startTask { s with queues := s.queues.set k rest } u true) u) u
          true (some (toOutcome rru))).acqs[v]? = some rv ∧ rv.resolved = false ∧
          rv.beh = .syncCb rrv := by
      intro v hv
      obtain ⟨rv, rrv, hrv, hres2, hbeh2⟩ := hall v (List.mem_cons_of_mem u hv)
      have hvne : v ≠ u := fun he => (List.nodup_cons.mp hnd).1 (he ▸ hv)
      refine ⟨rv, rrv, ?_, hres2, hbeh2⟩
      rw [hacqs]
      rw [List.getElem?_set_ne (fun he => hvne he.symm)]
      exact hrv
    rw [advanceDepth_sync k rest _ (List.nodup_cons.mp hnd).2 hrest]
    simp only [List.length_cons]
    omega

theorem chainDepth_eq (n : Nat) : chainDepth n = n + 1 := by
  cases n with
  | zero => rfl
  | succ m =>
    unfold chainDepth chainState
    rw [chainAcquires_spec (m + 1) (m + 1) (le_refl _)]
    have hstep : settleChainDepth
        { queues := ⟨[(1, List.range' 1 (m + 1))]⟩, domains := ⟨[(1, none)]⟩,
          acqs := { key := 1, ctx := none, beh := .promiseFn none, startedLocked := true } ::
            List.replicate (m + 1) { key := 1, ctx := none, beh := .syncCb (.ok none) },
          started := [0], lockTimeout := 0, maxPending := m + 1 + 1,
          domainReentrant := false }
        0 (.ok none) =
      1 + advanceDepth
        { queues := ⟨[(1, List.range' 1 (m + 1))]⟩, domains := ⟨[]⟩,
          acqs := { key := 1, ctx := none, beh := .promiseFn none, startedLocked := true,
                    called := true, resolved := true, deliveries := [Except.ok none] } ::
            List.replicate (m + 1) { key := 1, ctx := none, beh := .syncCb (.ok none) },
          started := [0], lockTimeout := 0, maxPending := m + 1 + 1,
          domainReentrant := false }
        1 (List.range' 1 (m + 1)) := by
      rfl
    rw [hstep]
    have hall2 : ∀ u ∈ List.range' 1 (m + 1), ∃ ru rru,
        ({ queues := ⟨[(1, List.range' 1 (m + 1))]⟩, domains := ⟨[]⟩,
           acqs := { key := 1, ctx := none, beh := .promiseFn none, startedLocked := true,
                     called := true, resolved := true, deliveries := [Except.ok none] } ::
             List.replicate (m + 1) { key := 1, ctx := none, beh := .syncCb (.ok none) },
           started := [0], lockTimeout := 0, maxPending := m + 1 + 1,
           domainReentrant := false } : LockState).acqs[u]? = some ru ∧
          ru.resolved = false ∧ ru.beh = .syncCb rru := by
      intro u hu
      rw [List.mem_range'_1] at hu
      cases u with
      | zero => omega
      | succ i =>
        refine ⟨{ key := 1, ctx := none, beh := .syncCb (.ok none) }, Except.ok none,
          ?_, rfl, rfl⟩
        simp only [List.getElem?_cons_succ]
        exact List.getElem?_replicate_of_lt (by omega)
    rw [advanceDepth_sync 1 (List.range' 1 (m + 1)) _ (List.nodup_range' 1 (m + 1)) hall2]
    simp [List.length_range']
    omega

/-! ### Lookup preservation and observational agreement through the cascade -/

theorem advanceLoop_lookup_ne (k : Key) (t : Tid) : ∀ (q : List Tid) (s : LockState),
    t ∉ q → (advanceLoop s k q).acqs[t]? = s.acqs[t]?
  | [], s, _ => rfl
  | u :: rest, s, hm => by
    have hut : u ≠ t := fun he => hm (he ▸ List.mem_cons_self u rest)
    have hmr : t ∉ rest := fun hr => hm (List.mem_cons_of_mem u hr)
    rw [advanceLoop]
    cases hu : ({ s with queues := s.queues.set k rest } : LockState).acqs[u]? with
    | none => rfl
    | some ru =>
      dsimp only
      by_cases hres : ru.resolved = true
      · rw [if_pos hres]
        rw [advanceLoop_lookup_ne k t rest _ hmr]
        rw [doneCore_acqs_resolved true none hu hres]
      · rw [if_neg hres]
        have hresF : ru.resolved = false := by
          cases hc : ru.resolved
          · rfl
          · exact absurd hc hres
        cases hbeh : ru.beh with
        | syncCb rr =>
          dsimp only
          rw [advanceLoop_lookup_ne k t rest _ hmr]
          rw [syncRun_acqs hu hresF rr]
          rw [List.getElem?_set_ne hut]
        | asyncCb =>
          dsimp only
          rw [startTask_acqs true hu]
          rw [List.getElem?_set_ne hut]
        | promiseFn pre =>
          dsimp only
          rw [startTask_acqs true hu]
          rw [List.getElem?_set_ne hut]

theorem advanceLoop_dead (k : Key) (t : Tid) (rec : AcqRec) (hres : rec.resolved = true) :
    ∀ (q : List Tid) (s : LockState), s.acqs[t]? = some rec →
      (advanceLoop s k q).acqs[t]? = some rec
  | [], s, hl => hl
  | u :: rest, s, hl => by
    rw [advanceLoop]
    by_cases hut : u = t
    · subst hut
      have hu1 : ({ s with queues := s.queues.set k rest } : LockState).acqs[u]? = some rec := hl
      rw [hu1]
      dsimp only
      rw [if_pos hres]
      refine advanceLoop_dead k u rec hres rest _ ?_
      rw [doneCore_acqs_resolved true none hu1 hres]
      exact hl
    · cases hu : ({ s with queues := s.queues.set k rest } : LockState).acqs[u]? with
      | none => exact hl
      | some ru =>
        dsimp only
        by_cases hres2 : ru.resolved = true
        · rw [if_pos hres2]
          refine advanceLoop_dead k t rec hres rest _ ?_
          rw [doneCore_acqs_resolved true none hu hres2]
          exact hl
        · rw [if_neg hres2]
          have hresF : ru.resolved = false := by
            cases hc : ru.resolved
            · rfl
            · exact absurd hc hres2
          have hut2 : u ≠ t := hut
          cases hbeh : ru.beh with
          | syncCb rr =>
            dsimp only
            refine advanceLoop_dead k t rec hres rest _ ?_
            rw [syncRun_acqs hu hresF rr]
            rw [List.getElem?_set_ne hut2]
            exact hl
          | asyncCb =>
            dsimp only
            rw [startTask_acqs true hu]
            rw [List.getElem?_set_ne hut2]
            exact hl
          | promiseFn pre =>
            dsimp only
            rw [startTask_acqs true hu]
            rw [List.getElem?_set_ne hut2]
            exact hl

theorem lookups_set_agree {l1 l2 : List AcqRec} {t u : Tid} {R : AcqRec}
    (hlen : l1.length = l2.length) (h : ∀ w, w ≠ t → l1[w]? = l2[w]?)
    (hu : u < l1.length) :
    ∀ w, w ≠ t → (l1.set u R)[w]? = (l2.set u R)[w]? := by
  intro w hw
  by_cases hwu : w = u
  · subst hwu
    rw [List.getElem?_set_self hu, List.getElem?_set_self (hlen ▸ hu)]
  · have huw : u ≠ w := fun he => hwu he.symm
    rw [List.getElem?_set_ne huw, List.getElem?_set_ne huw]
    exact h w hw

theorem advanceLoop_agree (k : Key) (t : Tid) : ∀ (q : List Tid) (s1 s2 : LockState),
    AgreeExcept t s1 s2 → t ∉ q →
    AgreeExcept t (advanceLoop s1 k q) (advanceLoop s2 k q)
  | [], _, _, hA, _ => hA
  | u :: rest, s1, s2, hA, hm => by
    obtain ⟨hQ, hD, hS, hL, hI⟩ := hA
    have hut : u ≠ t := fun he => hm (he ▸ List.mem_cons_self u rest)
    have hmr : t ∉ rest := fun hr => hm (List.mem_cons_of_mem u hr)
    have e1q : ({ s1 with queues := s1.queues.set k rest } : LockState).queues =
        s1.queues.set k rest := rfl
    have e2q : ({ s2 with queues := s2.queues.set k rest } : LockState).queues =
        s2.queues.set k rest := rfl
    have e1d : ({ s1 with queues := s1.queues.set k rest } : LockState).domains =
        s1.domains := rfl
    have e2d : ({ s2 with queues := s2.queues.set k rest } : LockState).domains =
        s2.domains := rfl
    have e1s : ({ s1 with queues := s1.queues.set k rest } : LockState).started =
        s1.started := rfl
    have e2s : ({ s2 with queues := s2.queues.set k rest } : LockState).started =
        s2.started := rfl
    have hA' : AgreeExcept t { s1 with queues := s1.queues.set k rest }
        { s2 with queues := s2.queues.set k rest } := by
      refine ⟨?_, hD, hS, hL, hI⟩
      rw [e1q, e2q, hQ]
    have hlk : ({ s1 with queues := s1.queues.set k rest } : LockState).acqs[u]? =
        ({ s2 with queues := s2.queues.set k rest } : LockState).acqs[u]? := hI u hut
    rw [advanceLoop, advanceLoop]
    cases hv1 : ({ s1 with queues := s1.queues.set k rest } : LockState).acqs[u]? with
    | none =>
      have hv2 : ({ s2 with queues := s2.queues.set k rest } : LockState).acqs[u]? = none := by
        rw [← hlk]
        exact hv1
      rw [hv2]
      exact hA'
    | some ru =>
      have hv2 : ({ s2 with queues := s2.queues.set k rest } : LockState).acqs[u]? =
          some ru := by
        rw [← hlk]
        exact hv1
      rw [hv2]
      dsimp only
      have hu1 : u < s1.acqs.length := getIdx_lt hv1
      by_cases hres : ru.resolved = true
      · rw [if_pos hres, if_pos hres]
        refine advanceLoop_agree k t rest _ _ ?_ hmr
        refine ⟨?_, ?_, ?_, ?_, ?_⟩
        · rw [doneCore_queues_true none hv1, doneCore_queues_true none hv2]
          rw [e1q, e2q, hQ]
        · rw [doneCore_domains_true none hv1, doneCore_domains_true none hv2]
          rw [e1d, e2d, hD]
        · rw [doneCore_started, doneCore_started, e1s, e2s, hS]
        · rw [doneCore_acqs_len, doneCore_acqs_len]
          exact hL
        · intro w hw
          rw [doneCore_acqs_resolved true none hv1 hres,
              doneCore_acqs_resolved true none hv2 hres]
          exact hI w hw
      · rw [if_neg hres, if_neg hres]
        have hresF : ru.resolved = false := by
          cases hc : ru.resolved
          · rfl
          · exact absurd hc hres
        cases hbeh : ru.beh with
        | syncCb rr =>
          dsimp only
          refine advanceLoop_agree k t rest _ _ ?_ hmr
          refine ⟨?_, ?_, ?_, ?_, ?_⟩
          · rw [syncRun_queues hv1 rr, syncRun_queues hv2 rr]
            rw [e1q, e2q, hQ]
          · rw [doneCore_domains_true (some (toOutcome rr)) (syncRun_lookup hv1),
                doneCore_domains_true (some (toOutcome rr)) (syncRun_lookup hv2),
                setCalled_domains, setCalled_domains,
                startTask_domains_true hv1, startTask_domains_true hv2]
            rw [e1d, e2d, hD]
          · rw [syncRun_started hv1 rr, syncRun_started hv2 rr, e1s, e2s, hS]
          · rw [syncRun_acqs hv1 hresF rr, syncRun_acqs hv2 hresF rr]
            simp only [List.length_set]
            exact hL
          · intro w hw
            rw [syncRun_acqs hv1 hresF rr, syncRun_acqs hv2 hresF rr]
            exact lookups_set_agree hL hI hu1 w hw
        | asyncCb =>
          dsimp only
          refine ⟨?_, ?_, ?_, ?_, ?_⟩
          · rw [startTask_queues, startTask_queues, e1q, e2q, hQ]
          · rw [startTask_domains_true hv1, startTask_domains_true hv2, e1d, e2d, hD]
          · rw [startTask_started true hv1, startTask_started true hv2, e1s, e2s, hS]
          · rw [startTask_acqs true hv1, startTask_acqs true hv2]
            simp only [List.length_set]
            exact hL
          · intro w hw
            rw [startTask_acqs true hv1, startTask_acqs true hv2]
            exact lookups_set_agree hL hI hu1 w hw
        | promiseFn pre =>
          dsimp only
          refine ⟨?_, ?_, ?_, ?_, ?_⟩
          · rw [startTask_queues, startTask_queues, e1q, e2q, hQ]
          · rw [startTask_domains_true hv1, startTask_domains_true hv2, e1d, e2d, hD]
          · rw [startTask_started true hv1, startTask_started true hv2, e1s, e2s, hS]
          · rw [startTask_acqs true hv1, startTask_acqs true hv2]
            simp only [List.length_set]
            exact hL
          · intro w hw
            rw [startTask_acqs true hv1, startTask_acqs true hv2]
            exact lookups_set_agree hL hI hu1 w hw

theorem settle_char {s : LockState} {t : Tid} {rec0 : AcqRec}
    (hB : BaseInv s) (hr : s.acqs[t]? = some rec0)
    (hcalF : rec0.called = false)
    (hstarted : rec0.startedLocked = true ∨ rec0.startedUnlocked = true)
    (r : SettleArg) :
    (settle s t r).acqs[t]? =
      some { rec0 with called := true, resolved := true,
                       deliveries := rec0.deliveries ++ [toOutcome r] } := by
  have hlt : t < s.acqs.length := getIdx_lt hr
  unfold settle
  rw [hr]
  dsimp only
  have hcal : ¬ rec0.called = true := by simp [hcalF]
  rw [if_neg hcal]
  have hresF : rec0.resolved = false := by
    cases hres : rec0.resolved
    · rfl
    · have hcc := hB.resolvedCalled t rec0 hr hres hstarted
      rw [hcalF] at hcc
      simp at hcc
  have hs1a := setCalled_acqs hr
  have hlook1 : (setCalled s t).acqs[t]? = some { rec0 with called := true } := by
    rw [hs1a]
    exact List.getElem?_set_self hlt
  have hres1 : ({ rec0 with called := true } : AcqRec).resolved = false := by
    simpa using hresF
  have hqd := started_not_queued hB hr hstarted
  by_cases hSL : rec0.startedLocked = true
  · rw [if_pos hSL]
    have ha2 := doneCore_acqs_unresolved true (some (toOutcome r)) hlook1 hres1
    have haF : (doneCore (setCalled s t) t true (some (toOutcome r))).acqs =
        s.acqs.set t { rec0 with called := true, resolved := true,
                                 deliveries := rec0.deliveries ++ [toOutcome r] } := by
      rw [ha2, hs1a, List.set_set]
      rfl
    have hkeyOf := keyOf_eq hlook1
    have hq1 := doneCore_queues_true (some (toOutcome r)) hlook1
    rw [setCalled_queues] at hq1
    rw [doneLocked]
    rw [hkeyOf, hq1]
    cases hq0 : s.queues.get ({ rec0 with called := true } : AcqRec).key with
    | none =>
      rw [if_neg (by simp)]
      rw [hq0]
      dsimp only
      rw [haF]
      exact List.getElem?_set_self (by simpa using hlt)
    | some q0 =>
      by_cases h00 : q0 = []
      · subst h00
        rw [if_pos rfl]
        rw [MapPolyfill.get_delete_self s.queues _ hB.qkeysNodup]
        dsimp only
        rw [haF]
        exact List.getElem?_set_self (by simpa using hlt)
      · rw [if_neg (by simp [h00])]
        rw [hq0]
        dsimp only
        rw [advanceLoop_lookup_ne _ t q0 _ (hqd _ q0 hq0)]
        rw [haF]
        exact List.getElem?_set_self (by simpa using hlt)
  · rw [if_neg hSL]
    have ha2 := doneCore_acqs_unresolved false (some (toOutcome r)) hlook1 hres1
    have haF : (doneCore (setCalled s t) t false (some (toOutcome r))).acqs =
        s.acqs.set t { rec0 with called := true, resolved := true,
                                 deliveries := rec0.deliveries ++ [toOutcome r] } := by
      rw [ha2, hs1a, List.set_set]
      rfl
    rw [haF]
    exact List.getElem?_set_self (by simpa using hlt)

theorem settle_agree {s : LockState} {t : Tid} {rec0 : AcqRec}
    (hB : BaseInv s) (hr : s.acqs[t]? = some rec0)
    (hcalF : rec0.called = false)
    (hstarted : rec0.startedLocked = true ∨ rec0.startedUnlocked = true)
    (a b : SettleArg) :
    AgreeExcept t (settle s t a) (settle s t b) := by
  have hlt : t < s.acqs.length := getIdx_lt hr
  unfold settle
  rw [hr]
  dsimp only
  have hcal : ¬ rec0.called = true := by simp [hcalF]
  rw [if_neg hcal, if_neg hcal]
  have hresF : rec0.resolved = false := by
    cases hres : rec0.resolved
    · rfl
    · have hcc := hB.resolvedCalled t rec0 hr hres hstarted
      rw [hcalF] at hcc
      simp at hcc
  have hs1a := setCalled_acqs hr
  have hlook1 : (setCalled s t).acqs[t]? = some { rec0 with called := true } := by
    rw [hs1a]
    exact List.getElem?_set_self hlt
  have hres1 : ({ rec0 with called := true } : AcqRec).resolved = false := by
    simpa using hresF
  have hqd := started_not_queued hB hr hstarted
  have hAgreeCore : ∀ locked : Bool,
      AgreeExcept t (doneCore (setCalled s t) t locked (some (toOutcome a)))
        (doneCore (setCalled s t) t locked (some (toOutcome b))) := by
    intro locked
    cases locked
    · refine ⟨?_, ?_, ?_, ?_, ?_⟩
      · rw [doneCore_queues_false, doneCore_queues_false]
      · rw [doneCore_domains_false, doneCore_domains_false]
      · rw [doneCore_started, doneCore_started]
      · rw [doneCore_acqs_len, doneCore_acqs_len]
      · intro w hw
        have hwt : t ≠ w := fun he => hw he.symm
        rw [doneCore_acqs_unresolved false (some (toOutcome a)) hlook1 hres1,
            doneCore_acqs_unresolved false (some (toOutcome b)) hlook1 hres1,
            List.getElem?_set_ne hwt, List.getElem?_set_ne hwt]
    · refine ⟨?_, ?_, ?_, ?_, ?_⟩
      · rw [doneCore_queues_true (some (toOutcome a)) hlook1,
            doneCore_queues_true (some (toOutcome b)) hlook1]
      · rw [doneCore_domains_true (some (toOutcome a)) hlook1,
            doneCore_domains_true (some (toOutcome b)) hlook1]
      · rw [doneCore_started, doneCore_started]
      · rw [doneCore_acqs_len, doneCore_acqs_len]
      · intro w hw
        have hwt : t ≠ w := fun he => hw he.symm
        rw [doneCore_acqs_unresolved true (some (toOutcome a)) hlook1 hres1,
            doneCore_acqs_unresolved true (some (toOutcome b)) hlook1 hres1,
            List.getElem?_set_ne hwt, List.getElem?_set_ne hwt]
  by_cases hSL : rec0.startedLocked = true
  · rw [if_pos hSL, if_pos hSL]
    have hkeyOf := keyOf_eq hlook1
    have hq1a := doneCore_queues_true (some (toOutcome a)) hlook1
    have hq1b := doneCore_queues_true (some (toOutcome b)) hlook1
    rw [setCalled_queues] at hq1a hq1b
    rw [doneLocked, doneLocked]
    rw [hkeyOf, hq1a, hq1b]
    cases hq0 : s.queues.get ({ rec0 with called := true } : AcqRec).key with
    | none =>
      rw [if_neg (by simp)]
      rw [hq0]
      dsimp only
      exact hAgreeCore true
    | some q0 =>
      by_cases h00 : q0 = []
      · subst h00
        rw [if_pos rfl]
        rw [MapPolyfill.get_delete_self s.queues _ hB.qkeysNodup]
        dsimp only
        exact hAgreeCore true
      · rw [if_neg (by simp [h00])]
        rw [hq0]
        dsimp only
        exact advanceLoop_agree _ t q0 _ _ (hAgreeCore true) (hqd _ q0 hq0)
  · rw [if_neg hSL, if_neg hSL]
    exact hAgreeCore false

/-! ### A resolved, never-started acquisition stays untouched forever (C4) -/

theorem setCalled_lookup_ne {u t : Tid} (hne : u ≠ t) (s : LockState) :
    (setCalled s u).acqs[t]? = s.acqs[t]? := by
  unfold setCalled
  cases s.acqs[u]? with
  | none => rfl
  | some r =>
    dsimp only
    exact List.getElem?_set_ne hne

theorem startTask_lookup_ne {u t : Tid} (hne : u ≠ t) (s : LockState) (locked : Bool) :
    (startTask s u locked).acqs[t]? = s.acqs[t]? := by
  unfold startTask
  cases s.acqs[u]? with
  | none => rfl
  | some r =>
    dsimp only
    cases locked
    · rw [if_neg (by simp)]
      exact List.getElem?_set_ne hne
    · rw [if_pos rfl]
      exact List.getElem?_set_ne hne

theorem doneCore_lookup_ne {u t : Tid} (hne : u ≠ t) (s : LockState) (locked : Bool)
    (res : Option Outcome) :
    (doneCore s u locked res).acqs[t]? = s.acqs[t]? := by
  unfold doneCore
  cases s.acqs[u]? with
  | none => rfl
  | some r =>
    dsimp only
    have hacqs : (if locked then registryCleanup s r.key else s).acqs = s.acqs := by
      cases locked
      · rfl
      · rw [if_pos rfl, registryCleanup_acqs]
    cases hres : r.resolved
    · rw [if_neg (by simp)]
      dsimp only
      rw [List.getElem?_set_ne hne, hacqs]
    · rw [if_pos rfl, hacqs]

theorem doneLocked_dead {s : LockState} {u t : Tid} {rec : AcqRec} (hne : u ≠ t)
    (hl : s.acqs[t]? = some rec) (hres : rec.resolved = true) (res : Option Outcome) :
    (doneLocked s u res).acqs[t]? = some rec := by
  unfold doneLocked
  dsimp only
  have hl1 : (doneCore s u true res).acqs[t]? = some rec := by
    rw [doneCore_lookup_ne hne]
    exact hl
  cases hq : (doneCore s u true res).queues.get (keyOf s u) with
  | none => exact hl1
  | some q => exact advanceLoop_dead _ t rec hres q _ hl1

theorem execEntry_dead {s : LockState} {u t : Tid} {rec : AcqRec} (hne : u ≠ t)
    (hl : s.acqs[t]? = some rec) (hres : rec.resolved = true) (locked : Bool) :
    (execEntry s u locked).acqs[t]? = some rec := by
  unfold execEntry
  cases hu : s.acqs[u]? with
  | none => exact hl
  | some ru =>
    dsimp only
    by_cases hur : ru.resolved = true
    · rw [if_pos hur]
      cases locked
      · rw [if_neg (by simp)]
        rw [doneCore_lookup_ne hne]
        exact hl
      · rw [if_pos rfl]
        exact doneLocked_dead hne hl hres none
    · rw [if_neg hur]
      have hl2 : (startTask s u locked).acqs[t]? = some rec := by
        rw [startTask_lookup_ne hne]
        exact hl
      cases ru.beh with
      | syncCb rr =>
        dsimp only
        have hl3 : (setCalled (startTask s u locked) u).acqs[t]? = some rec := by
          rw [setCalled_lookup_ne hne]
          exact hl2
        cases locked
        · rw [if_neg (by simp)]
          rw [doneCore_lookup_ne hne]
          exact hl3
        · rw [if_pos rfl]
          exact doneLocked_dead hne hl3 hres (some (toOutcome rr))
      | asyncCb => exact hl2
      | promiseFn pre => exact hl2

theorem acquire_dead {s : LockState} {t : Tid} {rec : AcqRec}
    (hl : s.acqs[t]? = some rec) (hres : rec.resolved = true)
    (k : Key) (beh : Behavior) (ctx : Option Nat) (opts : Opts) :
    (acquire s k beh ctx opts).acqs[t]? = some rec := by
  have hlt : t < s.acqs.length := getIdx_lt hl
  have hne : s.acqs.length ≠ t := ne_of_gt hlt
  have hl0 : (s.acqs ++ [({ key := k, ctx := ctx, beh := beh } : AcqRec)])[t]? = some rec := by
    rw [List.getElem?_append_left hlt]
    exact hl
  unfold acquire
  dsimp only
  by_cases hhas : ({ s with acqs := s.acqs ++
      [({ key := k, ctx := ctx, beh := beh } : AcqRec)] } : LockState).queues.has k = false
  · rw [if_pos hhas]
    exact execEntry_dead hne hl0 hres true
  · rw [if_neg hhas]
    by_cases hree : reentrantCond { s with acqs := s.acqs ++
        [({ key := k, ctx := ctx, beh := beh } : AcqRec)] } k ctx = true
    · rw [if_pos hree]
      exact execEntry_dead hne hl0 hres false
    · rw [if_neg hree]
      cases hq : ({ s with acqs := s.acqs ++
          [({ key := k, ctx := ctx, beh := beh } : AcqRec)] } : LockState).queues.get k with
      | none => exact hl0
      | some q =>
        dsimp only
        by_cases hmp : ({ s with acqs := s.acqs ++
            [({ key := k, ctx := ctx, beh := beh } : AcqRec)] } : LockState).maxPending ≤
              q.length
        · rw [if_pos hmp]
          rw [doneCore_lookup_ne hne]
          exact hl0
        · rw [if_neg hmp]
          by_cases hto : jsOrDefault opts.timeout ({ s with acqs := s.acqs ++
              [({ key := k, ctx := ctx, beh := beh } : AcqRec)] } : LockState).lockTimeout ≠ 0
          · rw [if_pos hto]
            dsimp only
            rw [List.getElem?_set_ne hne]
            exact hl0
          · rw [if_neg hto]
            exact hl0

theorem settle_dead {s : LockState} {u t : Tid} {rec : AcqRec} (hne : u ≠ t)
    (hl : s.acqs[t]? = some rec) (hres : rec.resolved = true) (r : SettleArg) :
    (settle s u r).acqs[t]? = some rec := by
  unfold settle
  cases hu : s.acqs[u]? with
  | none => exact hl
  | some ru =>
    dsimp only
    by_cases hcal : ru.called = true
    · rw [if_pos hcal]
      exact hl
    · rw [if_neg hcal]
      have hl1 : (setCalled s u).acqs[t]? = some rec := by
        rw [setCalled_lookup_ne hne]
        exact hl
      by_cases hSL : ru.startedLocked = true
      · rw [if_pos hSL]
        exact doneLocked_dead hne hl1 hres (some (toOutcome r))
      · rw [if_neg hSL]
        rw [doneCore_lookup_ne hne]
        exact hl1

theorem timeoutFire_dead {s : LockState} {u t : Tid} {rec : AcqRec} (hne : u ≠ t)
    (hl : s.acqs[t]? = some rec) :
    (timeoutFire s u).acqs[t]? = some rec := by
  unfold timeoutFire
  cases hu : s.acqs[u]? with
  | none => exact hl
  | some ru =>
    dsimp only
    rw [doneCore_lookup_ne hne]
    dsimp only
    rw [List.getElem?_set_ne hne]
    exact hl

theorem step_dead {s s2 : LockState} {t : Tid} {rec : AcqRec} (hst : Step s s2)
    (hl : s.acqs[t]? = some rec) (hres : rec.resolved = true)
    (hSL : rec.startedLocked = false) (hSU : rec.startedUnlocked = false)
    (htm : rec.timerArmed = false) :
    s2.acqs[t]? = some rec := by
  cases hst with
  | acquireStep k beh ctx opts => exact acquire_dead hl hres k beh ctx opts
  | settleStep u r rec0 hrec hstarted hbeh =>
    by_cases hut : u = t
    · subst hut
      rw [hl] at hrec
      cases hrec
      rcases hstarted with hh | hh
      · rw [hSL] at hh
        cases hh
      · rw [hSU] at hh
        cases hh
    · exact settle_dead hut hl hres r
  | timeoutStep u rec0 hrec harmed =>
    by_cases hut : u = t
    · subst hut
      rw [hl] at hrec
      cases hrec
      rw [htm] at harmed
      cases harmed
    · exact timeoutFire_dead hut hl

theorem steps_dead {s s2 : LockState} {t : Tid} {rec : AcqRec}
    (hst : Relation.ReflTransGen Step s s2)
    (hl : s.acqs[t]? = some rec) (hres : rec.resolved = true)
    (hSL : rec.startedLocked = false) (hSU : rec.startedUnlocked = false)
    (htm : rec.timerArmed = false) :
    s2.acqs[t]? = some rec := by
  induction hst with
  | refl => exact hl
  | tail hpre hstep ih => exact step_dead hstep ih hres hSL hSU htm

/-! ### The claims -/

/-- C10: `_acquireBatch` reverses the caller's key array in place — the list it
folds over (and hands back to the caller's variable) is the reverse of the
input, and the composed chain nests the first key outermost. -/
theorem C10_batch_reverses_input :
    (∀ keys : List Key, (_acquireBatch keys).2 = keys.reverse) ∧
    (_acquireBatch [1, 2, 3]).2 = [3, 2, 1] ∧
    (_acquireBatch [1, 2, 3]).1 = Chain.acq 1 (Chain.acq 2 (Chain.acq 3 Chain.base)) :=
  ⟨fun _ => rfl, rfl, rfl⟩

/-- C9 counterexample: the call-stack depth of the synchronous completion chain
is NOT bounded by any constant independent of the number of queued
synchronously-completing waiters: `chainDepth n` (the nesting depth incurred
when the holder of `chainState n` completes) exceeds every candidate bound. -/
theorem C9_counterexample : ¬ ∃ C : Nat, ∀ n : Nat, chainDepth n ≤ C := by
  rintro ⟨C, hC⟩
  have h := hC (C + 1)
  rw [chainDepth_eq] at h
  omega

/-- C9 (amended): queue advancement on completion is a self-recursive call
chain (`done` → `shift()()` → `exec` → `done` → …), so a chain of `n`
synchronously-completing queued waiters nests `n + 1` activations: the
call-stack depth grows linearly with the queue length. -/
theorem C9_recursive_advancement_depth (n : Nat) : chainDepth n = n + 1 :=
  chainDepth_eq n

/-- C5 counterexample: a per-call `opts.maxPending` override is ignored.  On a
lock built with `maxPending: 2` whose key 1 has one running and one queued
acquisition, a third acquire passing `maxPending: 1` (so the claimed effective
bound 1 ≤ queue length 1 predicts immediate overflow rejection) is instead
appended to the queue, stays unresolved, and receives no overflow error. -/
theorem C5_counterexample :
    ovOpts.queues.get 1 = some [1, 2] ∧
    (ovOpts.acqs[2]?).map AcqRec.resolved = some false ∧
    (ovOpts.acqs[2]?).map AcqRec.deliveries = some [] := by
  refine ⟨by decide, by decide, by decide⟩

/-- C5 (amended): overflow is governed solely by the construction-time
`maxPending` (`self.maxPending`, default 1000): when the queue for a key
already holds at least that many waiters, the acquire is rejected at once with
the overflow error — the registry, holder contexts and invocation log are
untouched, the new record is resolved immediately with exactly that error and
no timer armed, and waiters already queued are unaffected; the per-call
`opts.maxPending` never influences the result of `acquire`. -/
theorem C5_overflow_construction_bound :
    (∀ (s : LockState) (k : Key) (beh : Behavior) (ctx : Option Nat) (opts : Opts)
        (q : List Tid),
      s.queues.get k = some q → reentrantCond s k ctx = false → s.maxPending ≤ q.length →
      (acquire s k beh ctx opts).queues = s.queues ∧
      (acquire s k beh ctx opts).domains = s.domains ∧
      (acquire s k beh ctx opts).started = s.started ∧
      (acquire s k beh ctx opts).acqs =
        s.acqs ++ [{ key := k, ctx := ctx, beh := beh, resolved := true,
                     deliveries := [Except.error JsErr.tooManyPending] }]) ∧
    (∀ (s : LockState) (k : Key) (beh : Behavior) (ctx : Option Nat)
        (tmo : Option Nat) (sq : Bool) (m1 m2 : Option Nat),
      acquire s k beh ctx ⟨tmo, sq, m1⟩ = acquire s k beh ctx ⟨tmo, sq, m2⟩) := by
  constructor
  · intro s k beh ctx opts q hq hre hlen
    have hhas : s.queues.has k = true := MapPolyfill.has_of_get hq
    unfold acquire
    dsimp only
    rw [if_neg (show ¬ (s.queues.has k = false) from by simp [hhas])]
    rw [if_neg (show ¬ (reentrantCond { s with acqs := s.acqs ++
        [({ key := k, ctx := ctx, beh := beh } : AcqRec)] } k ctx = true) from by
      rw [reentrantCond_acqs, hre]
      simp)]
    have hq0 : ({ s with acqs := s.acqs ++
        [({ key := k, ctx := ctx, beh := beh } : AcqRec)] } : LockState).queues.get k =
          some q := hq
    rw [hq0]
    dsimp only
    rw [if_pos (show ({ s with acqs := s.acqs ++
        [({ key := k, ctx := ctx, beh := beh } : AcqRec)] } : LockState).maxPending ≤
          q.length from hlen)]
    have hlookt : ({ s with acqs := s.acqs ++
        [({ key := k, ctx := ctx, beh := beh } : AcqRec)] } : LockState).acqs[s.acqs.length]? =
          some { key := k, ctx := ctx, beh := beh } := List.getElem?_concat_length _ _
    refine ⟨?_, ?_, ?_, ?_⟩
    · rw [doneCore_queues_false]
    · rw [doneCore_domains_false]
    · rw [doneCore_started]
    · rw [doneCore_acqs_unresolved false (some (Except.error JsErr.tooManyPending)) hlookt rfl]
      rw [show ({ s with acqs := s.acqs ++
          [({ key := k, ctx := ctx, beh := beh } : AcqRec)] } : LockState).acqs =
            s.acqs ++ [({ key := k, ctx := ctx, beh := beh } : AcqRec)] from rfl]
      rw [setConcatLen]
      rfl
  · intro s k beh ctx tmo sq m1 m2
    rfl

/-- C5 witness: the fourth acquisition on the overflow scenario hits the
construction-time bound 2 and is rejected as the amended claim states. -/
theorem C5_witness :
    ovOpts.queues.get 1 = some [1, 2] ∧ reentrantCond ovOpts 1 none = false ∧
    ovOpts.maxPending ≤ ([1, 2] : List Tid).length ∧
    ((acquire ovOpts 1 Behavior.asyncCb none {}).queues = ovOpts.queues ∧
     (acquire ovOpts 1 Behavior.asyncCb none {}).domains = ovOpts.domains ∧
     (acquire ovOpts 1 Behavior.asyncCb none {}).started = ovOpts.started ∧
     (acquire ovOpts 1 Behavior.asyncCb none {}).acqs =
       ovOpts.acqs ++ [{ key := 1, ctx := none, beh := Behavior.asyncCb, resolved := true,
                         deliveries := [Except.error JsErr.tooManyPending] }]) :=
  ⟨by decide, by decide, by decide,
   C5_overflow_construction_bound.1 ovOpts 1 Behavior.asyncCb none {} [1, 2]
     (by decide) (by decide) (by decide)⟩

/-- C6 counterexample: `isBusy` is keyed on JS truthiness, so querying the
falsy key `0` reports the whole-registry answer: on a state where only key 1
is busy, `isBusy(0)` returns `true` although key 0 is not in the registry. -/
theorem C6_counterexample :
    isBusy oneHeld (some 0) = true ∧ oneHeld.queues.has 0 = false := by
  refine ⟨by decide, by decide⟩

/-- C6 (amended): on every reachable state the registry holds a key exactly
while one unit of work holds its lock (no stale entries), `isBusy` with a
truthy key reports exactly registry membership, `isBusy` with no key reports
whether any key is busy, and a falsy key (`0`) is treated as no key. -/
theorem C6_registry_and_isBusy (s : LockState) (h : Reachable s) :
    (∀ k, s.queues.has k = true ↔ holdersCount s k = 1) ∧
    (∀ k, k ≠ 0 → isBusy s (some k) = s.queues.has k) ∧
    (isBusy s none = true ↔ ∃ k, s.queues.has k = true) ∧
    isBusy s (some 0) = isBusy s none := by
  obtain ⟨hB, hMx⟩ := reachable_inv h
  refine ⟨?_, ?_, ?_, rfl⟩
  · intro k
    have hmx := hMx k
    unfold MutexAt at hmx
    constructor
    · intro hh
      rw [hh] at hmx
      simpa using hmx
    · intro hc
      cases hhh : s.queues.has k
      · rw [hhh] at hmx
        simp at hmx
        rw [hc] at hmx
        cases hmx
      · rfl
  · intro k hk
    unfold isBusy
    dsimp only
    rw [if_neg hk]
  · unfold isBusy
    dsimp only
    rw [decide_eq_true_eq]
    exact MapPolyfill.size_pos_iff s.queues

/-- C6 witness: the amended registry/isBusy facts instantiated on the state
where one unit of work holds key 1. -/
theorem C6_witness :
    Reachable oneHeld ∧
    (oneHeld.queues.has 1 = true ↔ holdersCount oneHeld 1 = 1) ∧
    isBusy oneHeld (some 2) = oneHeld.queues.has 2 ∧
    (isBusy oneHeld none = true ↔ ∃ k, oneHeld.queues.has k = true) := by
  have hr : Reachable oneHeld :=
    ⟨none, none, false, Relation.ReflTransGen.single (Step.acquireStep _ 1 .asyncCb none {})⟩
  exact ⟨hr, (C6_registry_and_isBusy oneHeld hr).1 1,
    (C6_registry_and_isBusy oneHeld hr).2.1 2 (by decide),
    (C6_registry_and_isBusy oneHeld hr).2.2.1⟩

/-- C1: mutual exclusion per key on every reachable state — never two units of
work running locked under one key, and exactly one whenever the key sits in the
registry. -/
theorem C1_mutual_exclusion (s : LockState) (h : Reachable s) :
    (∀ k, holdersCount s k ≤ 1) ∧
    (∀ k, s.queues.has k = true → holdersCount s k = 1) ∧
    (∀ (k : Key) (t1 t2 : Tid) (r1 r2 : AcqRec),
      s.acqs[t1]? = some r1 → s.acqs[t2]? = some r2 →
      runningLockedFor k r1 = true → runningLockedFor k r2 = true → t1 = t2) := by
  obtain ⟨hB, hMx⟩ := reachable_inv h
  have hle : ∀ k, holdersCount s k ≤ 1 := by
    intro k
    have hmx := hMx k
    unfold MutexAt at hmx
    rw [hmx]
    split <;> omega
  refine ⟨hle, ?_, ?_⟩
  · intro k hh
    have hmx := hMx k
    unfold MutexAt at hmx
    rw [hh] at hmx
    simpa using hmx
  · intro k t1 t2 r1 r2 h1 h2 hr1 hr2
    exact countP_le_one_unique (runningLockedFor k) (hle k) h1 h2 hr1 hr2

/-- C1 witness: the mutual-exclusion facts instantiated on the reachable state
where one asynchronous unit of work holds key 1. -/
theorem C1_witness :
    Reachable oneHeld ∧ holdersCount oneHeld 1 ≤ 1 ∧ holdersCount oneHeld 1 = 1 := by
  have hr : Reachable oneHeld :=
    ⟨none, none, false, Relation.ReflTransGen.single (Step.acquireStep _ 1 .asyncCb none {})⟩
  exact ⟨hr, (C1_mutual_exclusion oneHeld hr).1 1,
    (C1_mutual_exclusion oneHeld hr).2.1 1 (by decide)⟩

/-- C2: waiters are enqueued at the tail in arrival order (head with
`skipQueue`) and do not start at acquire time; in the concrete scenarios the
invocation order is A, B, C for three plain acquires and A, D, B, C when D skips
the queue past the already-queued B and C, always after the running A
completes. -/
theorem C2_fifo_with_skipqueue :
    (∀ (s : LockState) (k : Key) (beh : Behavior) (ctx : Option Nat) (opts : Opts)
        (q : List Tid),
      s.queues.get k = some q → reentrantCond s k ctx = false → q.length < s.maxPending →
      (acquire s k beh ctx opts).queues.get k =
        some (if opts.skipQueue then s.acqs.length :: q else q ++ [s.acqs.length]) ∧
      (acquire s k beh ctx opts).started = s.started) ∧
    fifoABC.queues.get 1 = some [1, 2] ∧ fifoABC.started = [0] ∧
    fifoRun.started = [0, 1, 2] ∧
    skipABCD.queues.get 1 = some [3, 1, 2] ∧ skipABCD.started = [0] ∧
    skipRun.started = [0, 3, 1, 2] := by
  refine ⟨?_, by decide, by decide, by decide, by decide, by decide, by decide⟩
  intro s k beh ctx opts q hq hre hlen
  have hhas : s.queues.has k = true := MapPolyfill.has_of_get hq
  unfold acquire
  dsimp only
  rw [if_neg (show ¬ (s.queues.has k = false) from by simp [hhas])]
  rw [if_neg (show ¬ (reentrantCond { s with acqs := s.acqs ++
      [({ key := k, ctx := ctx, beh := beh } : AcqRec)] } k ctx = true) from by
    rw [reentrantCond_acqs, hre]
    simp)]
  have hq0 : ({ s with acqs := s.acqs ++
      [({ key := k, ctx := ctx, beh := beh } : AcqRec)] } : LockState).queues.get k =
        some q := hq
  rw [hq0]
  dsimp only
  rw [if_neg (show ¬ (({ s with acqs := s.acqs ++
      [({ key := k, ctx := ctx, beh := beh } : AcqRec)] } : LockState).maxPending ≤
        q.length) from Nat.not_le.mpr hlen)]
  by_cases hto : jsOrDefault opts.timeout ({ s with acqs := s.acqs ++
      [({ key := k, ctx := ctx, beh := beh } : AcqRec)] } : LockState).lockTimeout ≠ 0
  · rw [if_pos hto]
    exact ⟨MapPolyfill.get_set_self _ _ _, rfl⟩
  · rw [if_neg hto]
    exact ⟨MapPolyfill.get_set_self _ _ _, rfl⟩

/-- C2 witness: enqueueing C behind queued B while A holds key 1 appends at the
tail and starts nothing. -/
theorem C2_witness :
    (acquire oneHeld 1 Behavior.asyncCb none {}).queues.get 1 = some [1] ∧
    reentrantCond (acquire oneHeld 1 Behavior.asyncCb none {}) 1 none = false ∧
    ([1] : List Tid).length < (acquire oneHeld 1 Behavior.asyncCb none {}).maxPending ∧
    ((acquire (acquire oneHeld 1 Behavior.asyncCb none {}) 1 Behavior.asyncCb none
        {}).queues.get 1 =
      some (if ({} : Opts).skipQueue then
          (acquire oneHeld 1 Behavior.asyncCb none {}).acqs.length :: [1]
        else [1] ++ [(acquire oneHeld 1 Behavior.asyncCb none {}).acqs.length]) ∧
     (acquire (acquire oneHeld 1 Behavior.asyncCb none {}) 1 Behavior.asyncCb none
        {}).started = (acquire oneHeld 1 Behavior.asyncCb none {}).started) :=
  ⟨by decide, by decide, by decide,
   C2_fifo_with_skipqueue.1 (acquire oneHeld 1 Behavior.asyncCb none {}) 1 Behavior.asyncCb
     none {} [1] (by decide) (by decide) (by decide)⟩

/-- C3: on every reachable state every acquisition has received at most one
outcome, exactly one once resolved and none before; and the double-callback
scenario delivers only the first invocation's outcome. -/
theorem C3_exactly_once_delivery :
    (∀ s : LockState, Reachable s → ∀ (t : Tid) (r : AcqRec), s.acqs[t]? = some r →
      r.deliveries.length ≤ 1 ∧ (r.resolved = true → r.deliveries.length = 1) ∧
      (r.resolved = false → r.deliveries = [])) ∧
    (doubleCb.acqs[0]?).map AcqRec.deliveries = some [Except.ok (some 5)] := by
  constructor
  · intro s hre t r hl
    obtain ⟨hB, -⟩ := reachable_inv hre
    have hd := hB.deliv t r hl
    refine ⟨?_, ?_, ?_⟩
    · rw [hd]
      split <;> omega
    · intro hr1
      rw [hd, if_pos hr1]
    · intro hr0
      refine List.length_eq_zero.mp ?_
      rw [hd, if_neg (by simp [hr0])]
  · decide

/-- C3 witness: the at-most-once facts instantiated on the running holder of
key 1. -/
theorem C3_witness :
    Reachable oneHeld ∧
    oneHeld.acqs[0]? =
      some { key := 1, ctx := none, beh := Behavior.asyncCb, startedLocked := true } ∧
    (({ key := 1, ctx := none, beh := Behavior.asyncCb,
        startedLocked := true } : AcqRec).deliveries.length ≤ 1 ∧
     (({ key := 1, ctx := none, beh := Behavior.asyncCb,
         startedLocked := true } : AcqRec).resolved = true →
       ({ key := 1, ctx := none, beh := Behavior.asyncCb,
          startedLocked := true } : AcqRec).deliveries.length = 1) ∧
     (({ key := 1, ctx := none, beh := Behavior.asyncCb,
         startedLocked := true } : AcqRec).resolved = false →
       ({ key := 1, ctx := none, beh := Behavior.asyncCb,
          startedLocked := true } : AcqRec).deliveries = [])) := by
  have hr : Reachable oneHeld :=
    ⟨none, none, false, Relation.ReflTransGen.single (Step.acquireStep _ 1 .asyncCb none {})⟩
  exact ⟨hr, by decide, C3_exactly_once_delivery.1 oneHeld hr 0
    { key := 1, ctx := none, beh := Behavior.asyncCb, startedLocked := true } (by decide)⟩

/-- C4: a timer-armed waiter whose timer fires is resolved with the timeout
error without touching the registry or running anything, and its unit of work
is never invoked by any later engine event; the queue-advancement loop skips a
resolved waiter and moves to the next; and a unit of work that started running
has no armed timer and never received the acquisition-timeout error. -/
theorem C4_timeout_semantics :
    (∀ (s : LockState) (t : Tid) (rec0 : AcqRec), Reachable s →
      s.acqs[t]? = some rec0 → rec0.timerArmed = true →
      ∃ rec1 : AcqRec,
        (timeoutFire s t).acqs[t]? = some rec1 ∧
        rec1.resolved = true ∧
        rec1.deliveries = [Except.error JsErr.timedOut] ∧
        rec1.startedLocked = false ∧ rec1.startedUnlocked = false ∧
        (timeoutFire s t).queues = s.queues ∧
        (timeoutFire s t).domains = s.domains ∧
        (timeoutFire s t).started = s.started ∧
        ∀ s2, Relation.ReflTransGen Step (timeoutFire s t) s2 → s2.acqs[t]? = some rec1) ∧
    (∀ (s : LockState) (k : Key) (t : Tid) (rest : List Tid) (recb : AcqRec),
      ({ s with queues := s.queues.set k rest } : LockState).acqs[t]? = some recb →
      recb.resolved = true →
      advanceLoop s k (t :: rest) =
        advanceLoop (doneCore { s with queues := s.queues.set k rest } t true none) k rest ∧
      (doneCore { s with queues := s.queues.set k rest } t true none).acqs = s.acqs ∧
      (doneCore { s with queues := s.queues.set k rest } t true none).started = s.started) ∧
    (∀ (s : LockState) (t : Tid) (rec0 : AcqRec), Reachable s →
      s.acqs[t]? = some rec0 →
      (rec0.startedLocked = true ∨ rec0.startedUnlocked = true) →
      rec0.timerArmed = false ∧ Except.error JsErr.timedOut ∉ rec0.deliveries) := by
  refine ⟨?_, ?_, ?_⟩
  · intro s t rec0 hre hl harm
    obtain ⟨hB, hMx⟩ := reachable_inv hre
    obtain ⟨hres, hSL, hSU⟩ := hB.timerInv t rec0 hl harm
    have hdelivNil : rec0.deliveries = [] := by
      refine List.length_eq_zero.mp ?_
      have hh := hB.deliv t rec0 hl
      rw [if_neg (by simp [hres])] at hh
      exact hh
    have hlt : t < s.acqs.length := getIdx_lt hl
    have hsplit : timeoutFire s t =
        doneCore { s with acqs := s.acqs.set t { rec0 with timerArmed := false } } t false
          (some (.error .timedOut)) := by
      unfold timeoutFire
      rw [hl]
    have hlook1 : ({ s with acqs := s.acqs.set t { rec0 with timerArmed := false } } :
        LockState).acqs[t]? = some { rec0 with timerArmed := false } :=
      List.getElem?_set_self hlt
    have hres1 : ({ rec0 with timerArmed := false } : AcqRec).resolved = false := by
      simpa using hres
    have hAcqs : (timeoutFire s t).acqs =
        s.acqs.set t { rec0 with timerArmed := false, resolved := true,
                                 deliveries := rec0.deliveries ++
                                   [Except.error JsErr.timedOut] } := by
      rw [hsplit, doneCore_acqs_unresolved false (some (.error .timedOut)) hlook1 hres1]
      rw [show ({ s with acqs := s.acqs.set t { rec0 with timerArmed := false } } :
          LockState).acqs = s.acqs.set t { rec0 with timerArmed := false } from rfl]
      rw [List.set_set]
      rfl
    have hlookF : (timeoutFire s t).acqs[t]? =
        some { rec0 with timerArmed := false, resolved := true,
                         deliveries := rec0.deliveries ++ [Except.error JsErr.timedOut] } := by
      rw [hAcqs]
      exact List.getElem?_set_self hlt
    refine ⟨_, hlookF, rfl, ?_, hSL, hSU, ?_, ?_, ?_, ?_⟩
    · show rec0.deliveries ++ [Except.error JsErr.timedOut] = [Except.error JsErr.timedOut]
      rw [hdelivNil]
      rfl
    · rw [hsplit, doneCore_queues_false]
    · rw [hsplit, doneCore_domains_false]
    · rw [hsplit, doneCore_started]
    · intro s2 hsteps
      exact steps_dead hsteps hlookF rfl hSL hSU rfl
  · intro s k t rest recb hlb hresb
    refine ⟨?_, ?_, ?_⟩
    · rw [advanceLoop]
      rw [hlb]
      dsimp only
      rw [if_pos hresb]
    · exact doneCore_acqs_resolved true none hlb hresb
    · rw [doneCore_started]
  · intro s t rec0 hre hl hst
    obtain ⟨hB, -⟩ := reachable_inv hre
    constructor
    · cases harm : rec0.timerArmed
      · rfl
      · obtain ⟨-, hsl, hsu⟩ := hB.timerInv t rec0 hl harm
        rcases hst with hh | hh
        · rw [hh] at hsl
          cases hsl
        · rw [hh] at hsu
          cases hsu
    · exact hB.noSelfTimeout t rec0 hl hst

/-- C4 witness: the timer of the queued waiter (tid 1) of the timeout scenario
fires and the amended facts hold there. -/
theorem C4_witness :
    Reachable toWaiting ∧
    toWaiting.acqs[1]? =
      some { key := 1, ctx := none, beh := Behavior.asyncCb, timerArmed := true } ∧
    (∃ rec1 : AcqRec,
      (timeoutFire toWaiting 1).acqs[1]? = some rec1 ∧
      rec1.resolved = true ∧
      rec1.deliveries = [Except.error JsErr.timedOut] ∧
      rec1.startedLocked = false ∧ rec1.startedUnlocked = false ∧
      (timeoutFire toWaiting 1).queues = toWaiting.queues ∧
      (timeoutFire toWaiting 1).domains = toWaiting.domains ∧
      (timeoutFire toWaiting 1).started = toWaiting.started ∧
      ∀ s2, Relation.ReflTransGen Step (timeoutFire toWaiting 1) s2 →
        s2.acqs[1]? = some rec1) := by
  have hr : Reachable toWaiting :=
    ⟨some 5, none, false,
     Relation.ReflTransGen.tail
       (Relation.ReflTransGen.single
         (Step.acquireStep (initState (some 5) none false) 1 .asyncCb none {}))
       (Step.acquireStep (acquire (initState (some 5) none false) 1 .asyncCb none {})
         1 .asyncCb none {})⟩
  exact ⟨hr, by decide, C4_timeout_semantics.1 toWaiting 1
    { key := 1, ctx := none, beh := Behavior.asyncCb, timerArmed := true } hr
    (by decide) (by decide)⟩

/-- C7: a synchronous throw from the zero-argument form reaches the engine as
exactly the same settlement as an asynchronous rejection (`_promiseTry` routes
both through one failure path), the error is delivered verbatim to the
completion channel, and everything an outside observer can see — registry,
holder contexts, invocation order, and every other acquisition — is identical
to a successful completion. -/
theorem C7_failure_atomicity :
    (∀ e : Nat, _promiseTry (Except.error e) = Except.error e) ∧
    (∀ (s : LockState) (t : Tid) (e : Nat), syncThrowSettle s t e = asyncRejectSettle s t e) ∧
    (∀ (s : LockState) (t : Tid) (rec0 : AcqRec) (e : Nat), Reachable s →
      s.acqs[t]? = some rec0 → rec0.called = false →
      (rec0.startedLocked = true ∨ rec0.startedUnlocked = true) →
      (asyncRejectSettle s t e).acqs[t]? =
        some { rec0 with called := true, resolved := true,
                         deliveries := rec0.deliveries ++ [Except.error (JsErr.user e)] } ∧
      ∀ v : Option Nat,
        AgreeExcept t (asyncRejectSettle s t e) (settle s t (Except.ok v))) := by
  refine ⟨fun e => rfl, fun s t e => rfl, ?_⟩
  intro s t rec0 e hre hl hcal hst
  obtain ⟨hB, -⟩ := reachable_inv hre
  constructor
  · exact settle_char hB hl hcal hst (Except.error e)
  · intro v
    exact settle_agree hB hl hcal hst (Except.error e) (Except.ok v)

/-- C7 witness: the failing holder of key 1 delivers its error verbatim and is
observationally identical to a successful completion. -/
theorem C7_witness :
    Reachable oneHeld ∧
    oneHeld.acqs[0]? =
      some { key := 1, ctx := none, beh := Behavior.asyncCb, startedLocked := true } ∧
    ((asyncRejectSettle oneHeld 0 9).acqs[0]? =
      some { key := 1, ctx := none, beh := Behavior.asyncCb, startedLocked := true,
             called := true, resolved := true,
             deliveries := [Except.error (JsErr.user 9)] } ∧
     ∀ v : Option Nat,
       AgreeExcept 0 (asyncRejectSettle oneHeld 0 9) (settle oneHeld 0 (Except.ok v))) := by
  have hr : Reachable oneHeld :=
    ⟨none, none, false, Relation.ReflTransGen.single (Step.acquireStep _ 1 .asyncCb none {})⟩
  exact ⟨hr, by decide, C7_failure_atomicity.2.2 oneHeld 0
    { key := 1, ctx := none, beh := Behavior.asyncCb, startedLocked := true } 9 hr
    (by decide) (by decide) (Or.inl (by decide))⟩

theorem execEntry_unlocked_char {s0 : LockState} {t : Tid} {rec0 : AcqRec}
    (hlook : s0.acqs[t]? = some rec0) (hres : rec0.resolved = false)
    (hcal : rec0.called = false) (hSL : rec0.startedLocked = false) :
    (execEntry s0 t false).queues = s0.queues ∧
    (execEntry s0 t false).domains = s0.domains ∧
    (execEntry s0 t false).started = s0.started ++ [t] ∧
    ∀ r : SettleArg,
      (settle (execEntry s0 t false) t r).queues = (execEntry s0 t false).queues ∧
      (settle (execEntry s0 t false) t r).domains = (execEntry s0 t false).domains ∧
      (settle (execEntry s0 t false) t r).started = (execEntry s0 t false).started := by
  have hlen3 : t < (setCalled (startTask s0 t false) t).acqs.length := by
    rw [setCalled_acqs_len, startTask_acqs_len]
    exact getIdx_lt hlook
  unfold execEntry
  rw [hlook]
  dsimp only
  rw [if_neg (by simp [hres])]
  cases hbeh : rec0.beh with
  | syncCb rr =>
    dsimp only
    rw [if_neg (show ¬ (false = true) from by simp)]
    have hlook3 := startCall_lookup false hlook
    have haY := doneCore_acqs_unresolved false (some (toOutcome rr)) hlook3
      (by simpa using hres)
    have hYc : ((doneCore (setCalled (startTask s0 t false) t) t false
        (some (toOutcome rr))).acqs[t]?).map AcqRec.called = some true := by
      rw [haY, List.getElem?_set_self hlen3]
      rfl
    refine ⟨?_, ?_, ?_, ?_⟩
    · rw [doneCore_queues_false, setCalled_queues, startTask_queues]
    · rw [doneCore_domains_false, setCalled_domains, startTask_domains_false]
    · rw [doneCore_started, setCalled_started, startTask_started false hlook]
    · intro r
      unfold settle
      cases hY : (doneCore (setCalled (startTask s0 t false) t) t false
          (some (toOutcome rr))).acqs[t]? with
      | none =>
        rw [hY] at hYc
        cases hYc
      | some rY =>
        rw [hY] at hYc
        simp only [Option.map_some'] at hYc
        dsimp only
        rw [if_pos (by rw [Option.some_inj] at hYc; exact hYc)]
        exact ⟨rfl, rfl, rfl⟩
  | asyncCb =>
    dsimp only
    have hXc : (((startTask s0 t false).acqs[t]?).map AcqRec.called) = some false := by
      rw [startTask_acqs false hlook, List.getElem?_set_self (getIdx_lt hlook)]
      simp [hcal]
    have hXs : (((startTask s0 t false).acqs[t]?).map AcqRec.startedLocked) = some false := by
      rw [startTask_acqs false hlook, List.getElem?_set_self (getIdx_lt hlook)]
      simp [hSL]
    refine ⟨?_, ?_, ?_, ?_⟩
    · rw [startTask_queues]
    · rw [startTask_domains_false]
    · rw [startTask_started false hlook]
    · intro r
      unfold settle
      cases hX : (startTask s0 t false).acqs[t]? with
      | none =>
        rw [hX] at hXc
        cases hXc
      | some rX =>
        rw [hX] at hXc hXs
        simp only [Option.map_some', Option.some_inj] at hXc hXs
        dsimp only
        rw [if_neg (by simp [hXc])]
        rw [if_neg (by simp [hXs])]
        refine ⟨?_, ?_, ?_⟩
        · rw [doneCore_queues_false, setCalled_queues]
        · rw [doneCore_domains_false, setCalled_domains]
        · rw [doneCore_started, setCalled_started]
  | promiseFn pre =>
    dsimp only
    have hXc : (((startTask s0 t false).acqs[t]?).map AcqRec.called) = some false := by
      rw [startTask_acqs false hlook, List.getElem?_set_self (getIdx_lt hlook)]
      simp [hcal]
    have hXs : (((startTask s0 t false).acqs[t]?).map AcqRec.startedLocked) = some false := by
      rw [startTask_acqs false hlook, List.getElem?_set_self (getIdx_lt hlook)]
      simp [hSL]
    refine ⟨?_, ?_, ?_, ?_⟩
    · rw [startTask_queues]
    · rw [startTask_domains_false]
    · rw [startTask_started false hlook]
    · intro r
      unfold settle
      cases hX : (startTask s0 t false).acqs[t]? with
      | none =>
        rw [hX] at hXc
        cases hXc
      | some rX =>
        rw [hX] at hXc hXs
        simp only [Option.map_some', Option.some_inj] at hXc hXs
        dsimp only
        rw [if_neg (by simp [hXc])]
        rw [if_neg (by simp [hXs])]
        refine ⟨?_, ?_, ?_⟩
        · rw [doneCore_queues_false, setCalled_queues]
        · rw [doneCore_domains_false, setCalled_domains]
        · rw [doneCore_started, setCalled_started]

/-- C8: with reentrant mode on and the caller's context equal to the key's
current holder context, acquire runs the unit of work immediately (it is
logged as invoked at acquire time) while the queue registry and holder
contexts stay exactly as they were, and its completion releases nothing and
advances no queue. -/
theorem C8_reentrant_acquisition (s : LockState) (k : Key) (beh : Behavior) (d : Nat)
    (opts : Opts) (hre : s.domainReentrant = true) (hhas : s.queues.has k = true)
    (hdom : s.domains.get k = some (some d)) :
    (acquire s k beh (some d) opts).queues = s.queues ∧
    (acquire s k beh (some d) opts).domains = s.domains ∧
    (acquire s k beh (some d) opts).started = s.started ++ [s.acqs.length] ∧
    ∀ r : SettleArg,
      (settle (acquire s k beh (some d) opts) s.acqs.length r).queues =
        (acquire s k beh (some d) opts).queues ∧
      (settle (acquire s k beh (some d) opts) s.acqs.length r).domains =
        (acquire s k beh (some d) opts).domains ∧
      (settle (acquire s k beh (some d) opts) s.acqs.length r).started =
        (acquire s k beh (some d) opts).started := by
  have hEq : acquire s k beh (some d) opts =
      execEntry { s with acqs := s.acqs ++
        [({ key := k, ctx := some d, beh := beh } : AcqRec)] } s.acqs.length false := by
    unfold acquire
    dsimp only
    rw [if_neg (show ¬ (s.queues.has k = false) from by simp [hhas])]
    rw [if_pos (show reentrantCond { s with acqs := s.acqs ++
        [({ key := k, ctx := some d, beh := beh } : AcqRec)] } k (some d) = true from by
      rw [reentrantCond_acqs]
      simp [reentrantCond, hre, hdom])]
  rw [hEq]
  exact execEntry_unlocked_char (List.getElem?_concat_length _ _) rfl rfl rfl

/-- C8 witness: a reentrant acquire from context 7 on the held key 1 of the
reentrant scenario. -/
theorem C8_witness :
    reHeld.domainReentrant = true ∧ reHeld.queues.has 1 = true ∧
    reHeld.domains.get 1 = some (some 7) ∧
    ((acquire reHeld 1 Behavior.asyncCb (some 7) {}).queues = reHeld.queues ∧
     (acquire reHeld 1 Behavior.asyncCb (some 7) {}).domains = reHeld.domains ∧
     (acquire reHeld 1 Behavior.asyncCb (some 7) {}).started =
       reHeld.started ++ [reHeld.acqs.length] ∧
     ∀ r : SettleArg,
       (settle (acquire reHeld 1 Behavior.asyncCb (some 7) {}) reHeld.acqs.length r).queues =
         (acquire reHeld 1 Behavior.asyncCb (some 7) {}).queues ∧
       (settle (acquire reHeld 1 Behavior.asyncCb (some 7) {}) reHeld.acqs.length r).domains =
         (acquire reHeld 1 Behavior.asyncCb (some 7) {}).domains ∧
       (settle (acquire reHeld 1 Behavior.asyncCb (some 7) {}) reHeld.acqs.length r).started =
         (acquire reHeld 1 Behavior.asyncCb (some 7) {}).started) :=
  ⟨by decide, by decide, by decide,
   C8_reentrant_acquisition reHeld 1 Behavior.asyncCb 7 {} (by decide) (by decide) (by decide)⟩
